import Mathlib

/-!
Verification development for the AI-driven CAD design orchestrator
(`backend/app`): shallow embedding of the code validator
(`services/validation_service.py`), the parameter engine
(`services/parameter_service.py`), the agent pipeline
(`services/agent_service.py`) and the conversation engine
(`services/conversation_service.py` with its HTTP router
`routers/conversations.py`), together with proofs about them.

Python strings are embedded as `List Char`; Python `re` operations that
only involve literal patterns (all patterns in `CodeValidator.CORRECTIONS`
are regex-escaped literals) are embedded as literal find/replace over
character lists.  External collaborators (the LLM providers, the sandboxed
CAD executor subprocess, and Python's `ast.parse`) are modelled as oracle
parameters, mirroring the data each call site actually feeds them.
-/

namespace AiCad

/-- Characters matched by Python's regex `\s` (inside `str`). -/
def isPyWs (c : Char) : Bool :=
  c = ' ' || c = '\t' || c = '\n' || c = '\r' || c = '\x0b' || c = '\x0c'

/-- Python `s.lstrip()` over the `\s` whitespace set. -/
def dropWs (s : List Char) : List Char := s.dropWhile isPyWs

/-- Python substring test `pat in s` (always used with non-empty literals). -/
def occurs (pat s : List Char) : Bool :=
  s.tails.any fun t => pat.isPrefixOf t

/-- Python `s.find(pat)`/`str.index`: index of the first occurrence. -/
def findIdx (pat : List Char) : List Char → Option Nat
  | [] => if pat.isPrefixOf ([] : List Char) then some 0 else none
  | c :: rest =>
    if pat.isPrefixOf (c :: rest) then some 0
    else (findIdx pat rest).map (· + 1)

/-- Helper for `replaceAll`: while `skip` is positive, drop characters
(the tail of a replaced occurrence); at `skip = 0`, scan for the next
occurrence. -/
def replaceAllAux (pat repl : List Char) : ℕ → List Char → List Char
  | _, [] => []
  | skip + 1, _ :: rest => replaceAllAux pat repl skip rest
  | 0, c :: rest =>
    if pat.isPrefixOf (c :: rest) then
      repl ++ replaceAllAux pat repl (pat.length - 1) rest
    else
      c :: replaceAllAux pat repl 0 rest

/-- Python `re.sub` for a literal (regex-escaped) pattern: replace every
non-overlapping occurrence, scanning left to right. -/
def replaceAll (pat repl : List Char) (s : List Char) : List Char :=
  replaceAllAux pat repl 0 s

/-- Python `str.strip()`: drop `\s` whitespace from both ends. -/
def stripChars (s : List Char) : List Char :=
  ((s.dropWhile isPyWs).reverse.dropWhile isPyWs).reverse

/-- Convenience: substring test at the `String` level. -/
def strContains (s pat : String) : Bool := occurs pat.data s.data

/-- Convenience: strip at the `String` level. -/
def strStrip (s : String) : String := ⟨stripChars s.data⟩

/-- `agree p q` holds when `p` and `q` coincide on their common length:
one of them is a prefix of the other.  Used to decide whether a string can
overlap an occurrence of another inside some larger text. -/
def agree : List Char → List Char → Bool
  | [], _ => true
  | _, [] => true
  | a :: as, b :: bs => a = b && agree as bs

/-- `canOverlap q r` holds when an occurrence of `q` could intersect an
occurrence of `r` inside some text: either `q` can start inside `r`
(`agree q (r.drop i)`) or `r` can start strictly inside `q`. -/
def canOverlap (q r : List Char) : Bool :=
  ((List.range r.length).any fun i => agree q (r.drop i)) ||
  ((List.range q.length).any fun j => decide (0 < j) && agree (q.drop j) r)

/-- Concatenation interleaved with a separator (`List.intercalate` shape,
kept as a local recursive definition for proof convenience). -/
def joinSep (sep : List Char) : List (List Char) → List Char
  | [] => []
  | [u] => u
  | u :: us => u ++ (sep ++ joinSep sep us)

/-! ## Exact decimal numbers

All numeric values flowing through the embedded code (Python `float`s and
`int`s) originate from decimal literals and are only added, subtracted,
compared, scaled by powers of ten, and formatted; `Dec` models them as
exact decimals `mant / 10^exp`.  Every constructor site normalizes (strips
trailing powers of ten), so structural equality coincides with numeric
equality, and all operations reduce inside the kernel. -/
structure Dec where
  mant : Int
  exp : Nat
deriving Repr, DecidableEq

/-- Strip factors of ten from the mantissa. -/
def Dec.normAux : Int → Nat → Dec
  | m, 0 => ⟨m, 0⟩
  | m, e + 1 => if m % 10 = 0 then Dec.normAux (m / 10) e else ⟨m, e + 1⟩

def Dec.norm (d : Dec) : Dec := Dec.normAux d.mant d.exp

def Dec.ofInt (n : Int) : Dec := ⟨n, 0⟩

instance (n : ℕ) : OfNat Dec n := ⟨⟨n, 0⟩⟩

/-- `a / 10^k`, normalized. -/
def Dec.divPow (a : Dec) (k : ℕ) : Dec := Dec.norm ⟨a.mant, a.exp + k⟩

/-- `a * 10^k`, normalized. -/
def Dec.mulPow (a : Dec) (k : ℕ) : Dec := Dec.norm ⟨a.mant * (10 : ℤ) ^ k, a.exp⟩

def Dec.add (a b : Dec) : Dec :=
  Dec.norm ⟨a.mant * (10 : ℤ) ^ b.exp + b.mant * (10 : ℤ) ^ a.exp, a.exp + b.exp⟩

def Dec.sub (a b : Dec) : Dec :=
  Dec.norm ⟨a.mant * (10 : ℤ) ^ b.exp - b.mant * (10 : ℤ) ^ a.exp, a.exp + b.exp⟩

def Dec.neg (a : Dec) : Dec := ⟨-a.mant, a.exp⟩

def Dec.ble (a b : Dec) : Bool := a.mant * (10 : ℤ) ^ b.exp ≤ b.mant * (10 : ℤ) ^ a.exp

def Dec.blt (a b : Dec) : Bool := a.mant * (10 : ℤ) ^ b.exp < b.mant * (10 : ℤ) ^ a.exp

def Dec.isZero (a : Dec) : Bool := a.mant = 0

/-- Python `max(a, b)` (returns `a` on ties, like `max(0, 0.0)`). -/
def Dec.pyMax (a b : Dec) : Dec := if Dec.blt a b then b else a

/-- `v == int(v)`. -/
def Dec.isInt (a : Dec) : Bool := (Dec.norm a).exp = 0

/-! ## Shared scanners and number formatting -/
/-- Start index of the last occurrence (Python `str.rfind`, `none` for
`-1`). -/
def findLastIdx (pat : List Char) : List Char → Option Nat
  | [] => none
  | c :: rest =>
    match findLastIdx pat rest with
    | some k => some (k + 1)
    | none => if pat.isPrefixOf (c :: rest) then some 0 else none

/-- Try a head-anchored Boolean matcher at every position, left to right
(`re.search` with a matcher that consumes from the match start). -/
def scanAny (f : List Char → Bool) : List Char → Bool
  | [] => f []
  | c :: rest => f (c :: rest) || scanAny f rest

/-- Try a head-anchored matcher at every position, returning the first
(leftmost) result, like `re.search`. -/
def findMapSuffix {α : Type} (f : List Char → Option α) : List Char → Option α
  | [] => f []
  | c :: rest =>
    match f (c :: rest) with
    | some a => some a
    | none => findMapSuffix f rest

/-- Numeric value of a digit string. -/
def natOfDigits (ds : List Char) : ℕ :=
  ds.foldl (fun n c => n * 10 + (c.toNat - 48)) 0

/-- Left-pad a digit string with zeros to width `k`. -/
def padLeftZeros (s : String) (k : ℕ) : String :=
  ⟨List.replicate (k - s.length) '0' ++ s.data⟩

/-- Python `str(float)`: the shortest decimal expansion of the value
(`Dec` values are exact decimals, so this is their normalized digits). -/
def pyFloatStr (v : Dec) : String :=
  let n := Dec.norm v
  if n.exp = 0 then toString n.mant ++ ".0"
  else
    let sign := if n.mant < 0 then "-" else ""
    let mm := n.mant.natAbs
    sign ++ toString (mm / 10 ^ n.exp) ++ "." ++
      padLeftZeros (toString (mm % 10 ^ n.exp)) n.exp

/-! ## Code Validator (`services/validation_service.py`) -/
/-- Result record of `CodeValidator.validate`. -/
structure ValidationResult where
  is_valid : Bool
  errors : List String
  warnings : List String
  corrected_code : Option String := none
deriving Repr, DecidableEq

/-- One entry of `CodeValidator.CORRECTIONS`: the raw regex text (used in
the warning message), the literal string that this escaped-literal regex
matches, and the replacement. -/
structure Correction where
  rx : String
  lit : String
  repl : String
deriving Repr, DecidableEq

/-- `CodeValidator.CORRECTIONS` (all patterns are regex-escaped literals). -/
def CORRECTIONS : List Correction :=
  [⟨"\\.add\\(", ".add(", ".union("⟩,
   ⟨"\\.subtract\\(", ".subtract(", ".cut("⟩,
   ⟨"\\.fillett\\(", ".fillett(", ".fillet("⟩,
   ⟨"\\.champher\\(", ".champher(", ".chamfer("⟩,
   ⟨"\\.exturde\\(", ".exturde(", ".extrude("⟩,
   ⟨"from cadquery import \\*", "from cadquery import *", "import cadquery as cq"⟩,
   ⟨"import CadQuery", "import CadQuery", "import cadquery as cq"⟩]

/-- `CodeValidator.INVALID_METHODS`. -/
def INVALID_METHODS : List String :=
  ["addSolid", "createBox", "makeBox", "createCylinder", "makeCyl",
   "addShape", "appendShape", "combineWith", "subtractFrom",
   "moveBy", "scaleBy", "rotateBy", "mirrorBy"]

/-- Head-anchored match of `result\s*=`. -/
def resultEqAt (s : List Char) : Bool :=
  "result".data.isPrefixOf s &&
    (match dropWs (s.drop 6) with
     | '=' :: _ => true
     | _ => false)

/-- `CodeValidator._has_result_variable`: `re.search` of `^result\s*=`
(MULTILINE) or `\nresult\s*=`, i.e. `result\s*=` at some line start. -/
def hasResultAssignAux : Bool → List Char → Bool
  | atStart, [] => atStart && resultEqAt []
  | atStart, c :: rest =>
    (atStart && resultEqAt (c :: rest)) || hasResultAssignAux (c = '\n') rest

def hasResultAssign (code : List Char) : Bool := hasResultAssignAux true code

/-- Head-anchored match of `\.fillet\((\d+(?:\.\d+)?)\)`, returning the
captured value as `float(...)` would. -/
def filletArgAt (s : List Char) : Option Dec :=
  if ".fillet(".data.isPrefixOf s then
    let t := s.drop 8
    let d1 := t.takeWhile Char.isDigit
    if d1 = [] then none
    else
      match t.drop d1.length with
      | '.' :: t2 =>
        let d2 := t2.takeWhile Char.isDigit
        if d2 = [] then none
        else
          match t2.drop d2.length with
          | ')' :: _ =>
            some (Dec.add (Dec.ofInt (natOfDigits d1))
              (Dec.divPow (Dec.ofInt (natOfDigits d2)) d2.length))
          | _ => none
      | ')' :: _ => some (Dec.ofInt (natOfDigits d1))
      | _ => none
  else none

/-- Head-anchored match of `\.shell\([^)]+\)\s*$` under MULTILINE (`$`
matches before a newline or at the end of the string). -/
def shellEolAt (s : List Char) : Bool :=
  if ".shell(".data.isPrefixOf s then
    let t := s.drop 7
    let arg := t.takeWhile (· ≠ ')')
    if arg = [] then false
    else
      match t.drop arg.length with
      | ')' :: u =>
        let run := u.takeWhile isPyWs
        run.any (· = '\n') || u.drop run.length = []
      | _ => false
  else false

/-- Head-anchored match of `\.shell\(([^)]+)\)`. -/
def shellArgAt (s : List Char) : Bool :=
  if ".shell(".data.isPrefixOf s then
    let t := s.drop 7
    let arg := t.takeWhile (· ≠ ')')
    arg ≠ [] &&
      (match t.drop arg.length with
       | ')' :: _ => true
       | _ => false)
  else false

/-- `CodeValidator._check_antipatterns`. -/
def checkAntipatterns (code : List Char) : List String :=
  let w1 : List String :=
    match findMapSuffix filletArgAt code with
    | some v =>
      if Dec.blt 10 v then
        ["Large fillet radius (" ++ pyFloatStr v ++ "mm) may cause errors - consider reducing"]
      else []
    | none => []
  let w2 : List String :=
    if occurs ".loft(".data code then
      ["loft() can be unreliable - ensure sections are compatible"]
    else []
  let w3 : List String :=
    if occurs ".sweep(".data code then
      ["sweep() can fail on complex paths - test carefully"]
    else []
  let w4 : List String :=
    if scanAny shellEolAt code then
      if scanAny shellArgAt code then
        match findIdx ".shell(".data code with
        | some k =>
          if occurs ".faces(".data (code.take k) then []
          else ["shell() without face selection may give unexpected results"]
        | none => []
      else []
    else []
  w1 ++ w2 ++ w3 ++ w4

/-- Head-anchored match of `\.edges\("\|Z"\)\s*\.(?:fillet|chamfer)\(`. -/
def edgesZFilletAt (s : List Char) : Bool :=
  if ".edges(\"|Z\")".data.isPrefixOf s then
    let t := dropWs (s.drop 12)
    ".fillet(".data.isPrefixOf t || ".chamfer(".data.isPrefixOf t
  else false

/-- `CodeValidator._check_cylinder_fillet`. -/
def checkCylinderFillet (code : List Char) : List String :=
  if occurs ".cylinder(".data code && occurs ".edges(\"|Z\")".data code then
    if scanAny edgesZFilletAt code then
      ["Cannot use .edges(\"|Z\") on cylinders - they have no vertical edges. Use .edges(\">Z\") or .edges(\"<Z\") for top/bottom edges instead."]
    else []
  else []

/-- `CodeValidator._check_fillet_shell_order`. -/
def checkFilletShellOrder (code : List Char) : Option String :=
  match findIdx ".shell(".data code, findLastIdx ".fillet(".data code with
  | some sp, some fp =>
    if fp > sp then
      some "fillet() applied after shell() - this often fails. Consider applying fillet before shell."
    else none
  | _, _ => none

/-- Warning text `f"Auto-corrected: {pattern} → {replacement}"`. -/
def correctionWarning (c : Correction) : String :=
  "Auto-corrected: " ++ c.rx ++ " → " ++ c.repl

/-- The correction loop of `CodeValidator.validate`: for each pattern in
order, if it occurs, append a warning and rewrite every occurrence. -/
def runCorrections : List Correction → List Char × List String → List Char × List String
  | [], st => st
  | c :: cs, (s, ws) =>
    if occurs c.lit.data s then
      runCorrections cs (replaceAll c.lit.data c.repl.data s, ws ++ [correctionWarning c])
    else
      runCorrections cs (s, ws)

/-- The import-presence test of `CodeValidator.validate` (negated). -/
def importMissing (code : List Char) : Bool :=
  !(occurs "import cadquery".data code) && !(occurs "from cadquery".data code)

/-- The text prepended when the import is missing. -/
def IMPORT_PREFIX : List Char := "import cadquery as cq\n\n".data

/-- `CodeValidator.validate`.  The only non-pure ingredient of the source
function is `ast.parse` (Python's own parser); it enters as the oracle
`astError`, returning the `(lineno, msg)` of a `SyntaxError` or `none`. -/
def validate (astError : String → Option (ℕ × String)) (code : String) :
    ValidationResult :=
  let cd := code.data
  let errors1 : List String :=
    if importMissing cd then ["Missing CadQuery import statement"] else []
  let corrected1 : List Char :=
    if importMissing cd then IMPORT_PREFIX ++ cd else cd
  let errors2 := errors1 ++
    (if hasResultAssign cd then []
     else ["Code does not define \x27result\x27 variable"])
  let errors3 := errors2 ++
    (match astError code with
     | some (ln, msg) => ["Syntax error: Line " ++ toString ln ++ ": " ++ msg]
     | none => [])
  let errors4 := errors3 ++ (INVALID_METHODS.filterMap fun m =>
    if occurs ("." ++ m ++ "(").data cd then
      some ("Invalid method \x27" ++ m ++ "\x27 - this does not exist in CadQuery")
    else none)
  let st := runCorrections CORRECTIONS (corrected1, [])
  let warnings2 := st.2 ++ checkAntipatterns cd
  let errors5 := errors4 ++ checkCylinderFillet cd
  let warnings3 := warnings2 ++
    (match checkFilletShellOrder cd with
     | some w => [w]
     | none => [])
  { is_valid := errors5.isEmpty
    errors := errors5
    warnings := warnings3
    corrected_code := if st.1 ≠ cd then some (String.mk st.1) else none }

/-! ## Parameter Engine (`services/parameter_service.py`)

The engine works on the Python AST produced by `ast.parse`, which is a
stdlib collaborator; it enters the embedding as an oracle
`parse : String → Option (List PyStmt)` over the AST fragment the engine
inspects (`none` models a `SyntaxError`).  A concrete executable instance
`pyParse` for single-line top-level statements is defined further below. -/
/-- The fragment of Python expressions inspected by the parameter engine:
`ast.Constant` with an `int`/`float` value (`numConst`), with a `bool`
value (a subclass of `int` in Python), with a `str` value, or `None`;
`ast.UnaryOp(USub, …)`; anything else. -/
inductive PyExpr
  | numConst (v : Dec)
  | boolConst (b : Bool)
  | strConst (s : String)
  | noneConst
  | usub (e : PyExpr)
  | otherExpr
deriving Repr, DecidableEq

/-- Assignment targets: `ast.Name` or anything else. -/
inductive PyTarget
  | name (s : String)
  | otherTarget
deriving Repr, DecidableEq

/-- Top-level statements, with their 1-based `lineno`. -/
inductive PyStmt
  | assign (targets : List PyTarget) (value : PyExpr) (lineno : ℕ)
  | imprt (lineno : ℕ)
  | importFrom (lineno : ℕ)
  | exprStmt (value : PyExpr) (lineno : ℕ)
  | otherStmt (lineno : ℕ)
deriving Repr, DecidableEq

/-- `isinstance(node.value, ast.Constant)`. -/
def isConstExpr : PyExpr → Bool
  | .numConst _ => true
  | .boolConst _ => true
  | .strConst _ => true
  | .noneConst => true
  | _ => false

/-- A parameter record as returned by `extract_parameters`. -/
structure Parameter where
  name : String
  value : Dec
  unit : String := "mm"
  line : ℕ
deriving Repr, DecidableEq

/-- Python `str.lower()` (ASCII range; identifiers in scope are ASCII). -/
def lowerStr (s : String) : String := ⟨s.data.map Char.toLower⟩

/-- The skip set of `_is_dimension_parameter`. -/
def skipNames : List String :=
  ["result", "cq", "workplane", "shape", "model", "part", "i", "j", "n", "count"]

/-- `head(_?)(tail)?$`-shaped regexes from `DIMENSION_PATTERNS`. -/
def headOptTail (heads tails : List String) (s : String) : Bool :=
  heads.any fun h =>
    h.data.isPrefixOf s.data &&
      (let r := s.data.drop h.length
       r = [] || r = ['_'] ||
         tails.any (fun t => r = t.data || r = '_' :: t.data))

/-- `ParameterService._is_dimension_parameter`: the `DIMENSION_PATTERNS`
regex family, then the all-alphabetic fallback.  (`.*…$` patterns reduce
to suffix tests because identifiers contain no newline.) -/
def isDimensionParameter (name : String) : Bool :=
  let nl := lowerStr name
  if skipNames.contains nl then false
  else if
    ["length", "width", "height", "depth", "thickness", "diameter", "radius"].contains nl ||
    headOptTail ["x", "y", "z"] ["size", "dim", "length", "width"] nl ||
    headOptTail ["hole", "slot", "groove"] ["diameter", "radius", "width", "depth", "size"] nl ||
    headOptTail ["wall", "edge", "corner", "fillet", "chamfer", "bevel"]
      ["thickness", "radius", "size"] nl ||
    ["margin", "offset", "spacing", "gap", "clearance"].contains nl ||
    headOptTail ["inner", "outer"] ["diameter", "radius", "width", "height"] nl ||
    (["length", "width", "height", "depth", "thickness", "diameter", "radius",
      "size", "mm", "cm"].any fun suf => suf.data.isSuffixOf nl.data) ||
    (["min", "max", "total", "base", "top", "bottom", "left", "right",
      "front", "back"].any fun p => (p ++ "_").data.isPrefixOf nl.data)
  then true
  else nl.data ≠ [] && nl.data.all Char.isAlpha && nl.length ≤ 20

/-- The statement walk of `ParameterService.extract_parameters`: imports
and constant-expression statements (docstrings) are skipped, the first
other non-assignment stops the scan, single-`Name`-target assignments to
a numeric constant (possibly under unary minus) yield parameters. -/
def extractFromStmts : List PyStmt → List Parameter
  | [] => []
  | stmt :: rest =>
    match stmt with
    | .imprt _ => extractFromStmts rest
    | .importFrom _ => extractFromStmts rest
    | .exprStmt v _ => if isConstExpr v then extractFromStmts rest else []
    | .otherStmt _ => []
    | .assign targets value lineno =>
      match targets with
      | [PyTarget.name nm] =>
        match value with
        | .numConst v =>
          if isDimensionParameter nm then
            { name := nm, value := v, line := lineno } :: extractFromStmts rest
          else extractFromStmts rest
        | .boolConst b =>
          if isDimensionParameter nm then
            { name := nm, value := Dec.ofInt (if b then 1 else 0), line := lineno } :: extractFromStmts rest
          else extractFromStmts rest
        | .usub (.numConst v) =>
          if isDimensionParameter nm then
            { name := nm, value := Dec.neg v, line := lineno } :: extractFromStmts rest
          else extractFromStmts rest
        | .usub (.boolConst b) =>
          if isDimensionParameter nm then
            { name := nm, value := Dec.neg (Dec.ofInt (if b then 1 else 0)), line := lineno } :: extractFromStmts rest
          else extractFromStmts rest
        | _ => extractFromStmts rest
      | _ => extractFromStmts rest

/-- `ParameterService.extract_parameters`. -/
def extract_parameters (parse : String → Option (List PyStmt)) (code : String) :
    List Parameter :=
  match parse code with
  | none => []
  | some stmts => extractFromStmts stmts

/-- Python dict lookup (`name in new_values` / `new_values[name]`). -/
def dictLookup (m : List (String × Dec)) (k : String) : Option Dec :=
  (m.find? fun p => p.1 = k).map (·.2)

/-- Python dict insertion (`d[k] = v`): overwrite or append. -/
def dictInsert (m : List (String × Dec)) (k : String) (v : Dec) : List (String × Dec) :=
  if (m.find? fun p => p.1 = k).isSome then
    m.map fun p => if p.1 = k then (k, v) else p
  else m ++ [(k, v)]

/-- The map `{p.name: p.value}` built from an extraction result. -/
def mapFromExtract (ps : List Parameter) : List (String × Dec) :=
  ps.foldl (fun m p => dictInsert m p.name p.value) []

/-- Characters of the regex class `[\d\.\-]`. -/
def isNumRunChar (c : Char) : Bool := c.isDigit || c = '.' || c = '-'

/-- One `re.sub(rf'^(\s*{name}\s*=\s*)[\d\.\-]+', rf'\g<1>{value_str}', line)`
application: the pattern is anchored, so at most one substitution happens. -/
def subAssignLine (nm : List Char) (valueStr : List Char) (line : List Char) :
    List Char :=
  let lead := line.takeWhile isPyWs
  let t1 := line.drop lead.length
  if nm.isPrefixOf t1 then
    let t2 := t1.drop nm.length
    let mid := t2.takeWhile isPyWs
    match t2.drop mid.length with
    | '=' :: t4 =>
      let post := t4.takeWhile isPyWs
      let t5 := t4.drop post.length
      let run := t5.takeWhile isNumRunChar
      if run = [] then line
      else lead ++ nm ++ mid ++ '=' :: (post ++ valueStr ++ t5.drop run.length)
    | _ => line
  else line

/-- Python `value_str`: integers render without a decimal point. -/
def valueStrOf (v : Dec) : String :=
  if Dec.isInt v then toString (Dec.norm v).mant else pyFloatStr v

/-- `code.split('\n')`. -/
def splitLines : List Char → List (List Char)
  | [] => [[]]
  | c :: rest =>
    if c = '\n' then [] :: splitLines rest
    else
      match splitLines rest with
      | l :: ls => (c :: l) :: ls
      | [] => [[c]]

/-- The replacement-building walk of `ParameterService.inject_parameters`
(the Python `replacements` dict in insertion order; the original `lines`
are always read, never the updated ones). -/
def injectWalk (lines : List (List Char)) (newValues : List (String × Dec)) :
    List PyStmt → List (ℕ × List Char)
  | [] => []
  | stmt :: rest =>
    match stmt with
    | .imprt _ => injectWalk lines newValues rest
    | .importFrom _ => injectWalk lines newValues rest
    | .exprStmt _ _ => injectWalk lines newValues rest
    | .otherStmt _ => []
    | .assign targets _ lineno =>
      match targets with
      | [PyTarget.name nm] =>
        match dictLookup newValues nm with
        | some v =>
          let lineIdx := lineno - 1
          let oldLine := lines.getD lineIdx []
          (lineIdx, subAssignLine nm.data (valueStrOf v).data oldLine) ::
            injectWalk lines newValues rest
        | none => injectWalk lines newValues rest
      | _ => injectWalk lines newValues rest

/-- `ParameterService.inject_parameters`. -/
def inject_parameters (parse : String → Option (List PyStmt)) (code : String)
    (newValues : List (String × Dec)) : String :=
  match parse code with
  | none => code
  | some stmts =>
    let lines := splitLines code.data
    let reps := injectWalk lines newValues stmts
    let lines2 := reps.foldl (fun ls (p : ℕ × List Char) => ls.set p.1 p.2) lines
    String.mk (joinSep ['\n'] lines2)

/-! ## A concrete parse oracle -/
def isIdentStart (c : Char) : Bool := c.isAlpha || c = '_'

def isIdentChar (c : Char) : Bool := c.isAlpha || c.isDigit || c = '_'

def isSpaceTab (c : Char) : Bool := c = ' ' || c = '\t'

/-- Parse an unsigned Python numeric literal (decimal integer, decimal
float, optionally with an exponent part), returning `float(...)`'s exact
value as a rational together with the rest of the input. -/
def parseUnsignedNum (s : List Char) : Option (Dec × List Char) :=
  let d1 := s.takeWhile Char.isDigit
  let t := s.drop d1.length
  let mantissa : Option (Dec × List Char) :=
    match d1, t with
    | [], '.' :: t2 =>
      let d2 := t2.takeWhile Char.isDigit
      if d2 = [] then none
      else some (Dec.divPow (Dec.ofInt (natOfDigits d2)) d2.length, t2.drop d2.length)
    | [], _ => none
    | _, '.' :: t2 =>
      let d2 := t2.takeWhile Char.isDigit
      some (Dec.add (Dec.ofInt (natOfDigits d1))
        (Dec.divPow (Dec.ofInt (natOfDigits d2)) d2.length), t2.drop d2.length)
    | _, _ => some (Dec.ofInt (natOfDigits d1), t)
  match mantissa with
  | none => none
  | some (v, rest) =>
    match rest with
    | 'e' :: r1 =>
      let (neg, r2) : Bool × List Char :=
        match r1 with
        | '+' :: r' => (false, r')
        | '-' :: r' => (true, r')
        | _ => (false, r1)
      let d := r2.takeWhile Char.isDigit
      if d = [] then none
      else
        let e := natOfDigits d
        some (if neg then Dec.divPow v e else Dec.mulPow v e, r2.drop d.length)
    | 'E' :: r1 =>
      let (neg, r2) : Bool × List Char :=
        match r1 with
        | '+' :: r' => (false, r')
        | '-' :: r' => (true, r')
        | _ => (false, r1)
      let d := r2.takeWhile Char.isDigit
      if d = [] then none
      else
        let e := natOfDigits d
        some (if neg then Dec.divPow v e else Dec.mulPow v e, r2.drop d.length)
    | _ => some (v, rest)

/-- After a parsed literal, the line may only hold trailing blanks or a
comment for the RHS to be a plain `ast.Constant`. -/
def trailingOk (s : List Char) : Bool :=
  match s.dropWhile isSpaceTab with
  | [] => true
  | '#' :: _ => true
  | _ => false

/-- Classification of one source line. -/
inductive LineParse
  | blank
  | stmt (s : PyStmt)
  | bad
deriving Repr, DecidableEq

/-- Modelled from the spec: Python's `ast.parse`, restricted to modules of
single-line top-level statements (§4.4's "prefix of top-level assignments
whose right-hand side is a numeric literal", plus imports, docstrings and
arbitrary trailing statements).  Blank and comment lines produce no
statement; a top-level indented line makes the module unparseable;
statements that are not single-`Name` numeric assignments are classified
as the fragment's opaque constructors. -/
def parseLineStmt (lineno : ℕ) (line : List Char) : LineParse :=
  match line with
  | [] => .blank
  | c :: _ =>
    if c = '#' then .blank
    else if isPyWs c then .bad
    else if "import ".data.isPrefixOf line then .stmt (.imprt lineno)
    else if "from ".data.isPrefixOf line then .stmt (.importFrom lineno)
    else if c = '"' || c = '\x27' then .stmt (.exprStmt (.strConst "") lineno)
    else if isIdentStart c then
      let idc := line.takeWhile isIdentChar
      let t1 := (line.drop idc.length).dropWhile isSpaceTab
      if t1.head? = some '=' then
        if t1.tail.head? = some '=' then .stmt (.exprStmt .otherExpr lineno)
        else
          let t3 := t1.tail.dropWhile isSpaceTab
          let rhs : PyExpr :=
            if t3.head? = some '-' then
              match parseUnsignedNum (t3.tail.dropWhile isSpaceTab) with
              | some (v, rest) =>
                if trailingOk rest then .usub (.numConst v) else .otherExpr
              | none => .otherExpr
            else
              match parseUnsignedNum t3 with
              | some (v, rest) =>
                if trailingOk rest then .numConst v else .otherExpr
              | none => .otherExpr
          .stmt (.assign [.name (String.mk idc)] rhs lineno)
      else if t1 = [] then .stmt (.exprStmt .otherExpr lineno)
      else .stmt (.otherStmt lineno)
    else .stmt (.otherStmt lineno)

/-- Parse consecutive lines starting at line number `n`. -/
def parseLinesFrom : ℕ → List (List Char) → Option (List PyStmt)
  | _, [] => some []
  | n, l :: ls =>
    match parseLineStmt n l with
    | .bad => none
    | .blank => parseLinesFrom (n + 1) ls
    | .stmt s => (parseLinesFrom (n + 1) ls).map (s :: ·)

/-- Modelled from the spec: the concrete `ast.parse` instance over the
single-line fragment (see `parseLineStmt`). -/
def pyParse (code : String) : Option (List PyStmt) :=
  parseLinesFrom 1 (splitLines code.data)

/-- One canonically rendered parameter line, `name = value`. -/
def lineOf (p : String × Dec) : List Char :=
  p.1.data ++ ' ' :: '=' :: ' ' :: (valueStrOf p.2).data

/-- A canonically rendered parameter block: one `name = value` line per
pair, joined by newlines. -/
def renderParams (ps : List (String × Dec)) : String :=
  String.mk (joinSep ['\n'] (ps.map lineOf))

/-- The statements `ast.parse` yields on a rendered block whose first
line is numbered `n`. -/
def stmtsOf : ℕ → List (String × Dec) → List PyStmt
  | _, [] => []
  | n, p :: rest => .assign [.name p.1] (.numConst p.2) n :: stmtsOf (n + 1) rest

/-- The parameter records extracted from a rendered block whose first
line is numbered `n`. -/
def paramsOf : ℕ → List (String × Dec) → List Parameter
  | _, [] => []
  | n, p :: rest => { name := p.1, value := p.2, line := n } :: paramsOf (n + 1) rest

/-! ## Agent Pipeline (`services/agent_service.py`)

External calls are oracle fields of `PipelineOracles`; each oracle is
keyed exactly by the data the corresponding call site feeds it (provider
and model routing happen inside the external call and are absorbed by the
oracle).  JSON extraction from LLM replies (`re.search` + `json.loads`)
is part of the modelled external interaction. -/
/-- Axis-aligned bounding box in mm (`{"x": …, "y": …, "z": …}`). -/
structure BBox where
  x : Dec
  y : Dec
  z : Dec
deriving Repr, DecidableEq

/-- `cad_service.ExecutionResult`. -/
structure ExecutionResult where
  success : Bool
  bounding_box : Option BBox := none
  error : Option String := none
deriving Repr, DecidableEq

/-- The printer-settings fields read by the pipeline. -/
structure PrinterSettings where
  build_volume : BBox
  layer_height : Dec
  min_wall_thickness : Dec
  nozzle_diameter : Dec
deriving Repr, DecidableEq

/-- `AgentService._default_printer_settings`. -/
def defaultPrinterSettings : PrinterSettings :=
  { build_volume := ⟨220, 220, 250⟩
    layer_height := ⟨2, 1⟩
    min_wall_thickness := ⟨12, 1⟩
    nozzle_diameter := ⟨4, 1⟩ }

/-- `AgentRole` of `agent_service.py`. -/
inductive AgentRole
  | orchestrator
  | design
  | validation
  | optimization
  | review
deriving Repr, DecidableEq

/-- `AgentMessage` (the free-form `data` payload carries no information
used by any property here and is not modelled). -/
structure AgentMessage where
  role : AgentRole
  content : String
deriving Repr, DecidableEq

/-- Identities of system prompts from `prompts/agent_prompts.py` (their
text is opaque data passed to the external LLM call). -/
inductive SystemPrompt
  | designAgent
  | designWithImage
  | validationAgent
  | optimizationAgent
  | reviewAgent
deriving Repr, DecidableEq

/-- `DesignContext.image_data`: a single base64 string (legacy) or a list
of `(data, mime_type)` pairs. -/
inductive ImageData
  | single (data : String)
  | multi (imgs : List (String × String))
deriving Repr, DecidableEq

/-- The dict stored in `context.validation_result`. -/
structure ValidationSummary where
  valid : Bool
  errors : List String
  warnings : List String
deriving Repr, DecidableEq

/-- `agent_service.DesignContext`. -/
structure DesignContext where
  original_prompt : String
  image_data : Option ImageData := none
  image_mime_type : Option String := none
  existing_code : Option String := none
  context_parts : Option (List (String × String)) := none
  printer_settings : PrinterSettings
  code : Option String := none
  validation_result : Option ValidationSummary := none
  optimization_suggestions : List String := []
  bounding_box : Option BBox := none
  iterations : ℕ := 0
  max_iterations : ℕ := 3
  messages : List AgentMessage := []
deriving Repr, DecidableEq

/-- `DesignContext.has_images`. -/
def DesignContext.has_images (ctx : DesignContext) : Bool :=
  match ctx.image_data with
  | some (.multi l) => l.length > 0
  | some (.single _) => true
  | none => false

/-- `DesignContext.get_images_for_vision` (`None` for an empty list or a
falsy single payload, per the source's truthiness checks). -/
def DesignContext.get_images_for_vision (ctx : DesignContext) :
    Option (List (String × String)) :=
  match ctx.image_data with
  | some (.multi l) => if l ≠ [] then some l else none
  | some (.single d) =>
    if d ≠ "" then
      some [(d, match ctx.image_mime_type with
                | some m => if m ≠ "" then m else "image/jpeg"
                | none => "image/jpeg")]
    else none
  | none => none

/-- Python truthiness of `context.code` (`None` or `""` are falsy). -/
def codeFalsy (ctx : DesignContext) : Bool :=
  match ctx.code with
  | none => true
  | some s => s = ""

/-- Python truthiness of `context.image_data`. -/
def imageTruthy (ctx : DesignContext) : Bool :=
  match ctx.image_data with
  | none => false
  | some (.single d) => d ≠ ""
  | some (.multi l) => l ≠ []

/-- `context.validation_result.get("valid")` (falsy when unset). -/
def validationValid (ctx : DesignContext) : Bool :=
  match ctx.validation_result with
  | some v => v.valid
  | none => false

/-- `context.validation_result.get("errors", [])`. -/
def validationErrors (ctx : DesignContext) : List String :=
  match ctx.validation_result with
  | some v => v.errors
  | none => []

/-- Review-agent JSON payload fields the pipeline reads. -/
structure ReviewData where
  scoreRepr : String
  suggestions : List String
deriving Repr, DecidableEq

/-- Outcome of an external LLM call followed by JSON extraction. -/
inductive RawOutcome (α : Type)
  | ok (a : α)
  | noJson
  | exn (msg : String)
deriving Repr, DecidableEq

/-- The oracles standing for the pipeline's external collaborators. -/
structure PipelineOracles where
  /-- `_generate_with_vision` (provider call): content of the reply, as a
  function of system prompt, user prompt and image list. -/
  visionLLM : SystemPrompt → String → List (String × String) → String
  /-- The provider call inside `llm_service.generate_cad_code` (never
  reached from the pipeline: see `designTextCallKwargs`). -/
  textLLM : String → String
  /-- Validation-step `generate_raw` review plus JSON extraction, keyed by
  the code embedded in the prompt: `some (issues, suggestions)`; `none`
  covers both an exception and a reply without a JSON object. -/
  validationReview : String → Option (List String × List String)
  /-- Optimization-step `generate_raw`, keyed by the context whose fields
  the prompt embeds. -/
  optimizationLLM : DesignContext → Except String String
  /-- Review-agent call plus JSON extraction. -/
  reviewOutcome : DesignContext → RawOutcome ReviewData
  /-- `cad_service.execute_code` (sandboxed subprocess; never raises). -/
  exec : String → ExecutionResult
  /-- `ast.parse` as used by the static validator. -/
  astError : String → Option (ℕ × String)

/-- `AgentService._extract_code`. -/
def extractCode (content : String) : Option String :=
  let s := content.data
  let first : Option String :=
    if occurs "```python".data s then
      match findIdx "```python".data s with
      | some i =>
        let start := i + 9
        match findIdx "```".data (s.drop start) with
        | some rel =>
          if rel > 0 then some (String.mk (stripChars ((s.drop start).take rel)))
          else none
        | none => none
      | none => none
    else none
  match first with
  | some r => some r
  | none =>
    if occurs "```".data s then
      match findIdx "```".data s with
      | some i =>
        let start := i + 3
        let start2 :=
          match findIdx ['\n'] (s.drop start) with
          | some rel => if rel > 0 ∧ rel < 20 then start + rel + 1 else start
          | none => start
        match findIdx "```".data (s.drop start2) with
        | some rel2 =>
          if rel2 > 0 then some (String.mk (stripChars ((s.drop start2).take rel2)))
          else none
        | none => none
      | none => none
    else none

/-- `AgentService._check_printability`: `(fits, overflow)`. -/
def checkPrintability (bbox : BBox) (ps : PrinterSettings) : Bool × BBox :=
  let ox := Dec.pyMax 0 (Dec.sub bbox.x ps.build_volume.x)
  let oy := Dec.pyMax 0 (Dec.sub bbox.y ps.build_volume.y)
  let oz := Dec.pyMax 0 (Dec.sub bbox.z ps.build_volume.z)
  (Dec.isZero ox && Dec.isZero oy && Dec.isZero oz, ⟨ox, oy, oz⟩)

/-- Python repr of the overflow dict, used in the build-volume warning. -/
def overflowRepr (o : BBox) : String :=
  "\x7b\x27x\x27: " ++ pyFloatStr o.x ++ ", \x27y\x27: " ++ pyFloatStr o.y ++
    ", \x27z\x27: " ++ pyFloatStr o.z ++ "\x7d"

/-- Parameter names of `LLMService.generate_cad_code` (after `self`). -/
def generateCadCodeParams : List String :=
  ["prompt", "provider", "existing_code", "context_parts", "model"]

/-- Keyword arguments passed by `AgentService._run_design_agent` to
`generate_cad_code` on the text path. -/
def designTextCallKwargs : List String :=
  ["existing_code", "context_parts", "model", "validate", "auto_correct"]

/-- Python call binding for keyword arguments: every keyword must name a
parameter, else the call raises `TypeError` before the body runs. -/
def kwargsBind (params kwargs : List String) : Bool :=
  kwargs.all params.contains

/-- The user prompt built by `AgentService._run_design_agent`. -/
def designUserPrompt (ctx : DesignContext) (fixErrors : Option (List String)) :
    String :=
  let parts1 : List String :=
    if ctx.has_images then
      match ctx.get_images_for_vision with
      | some imgs =>
        if imgs.length > 1 then
          ["J\x27ai fourni " ++ toString imgs.length ++
            " images/dessins de référence pour guider la conception."]
        else ["J\x27ai fourni une image de référence pour guider la conception."]
      | none => ["J\x27ai fourni une image de référence pour guider la conception."]
    else []
  let parts2 := parts1 ++ ["Description: " ++ ctx.original_prompt]
  let parts3 := parts2 ++
    (match ctx.existing_code with
     | some e =>
       if e ≠ "" then ["\nCode existant à modifier:\n```python\n" ++ e ++ "\n```"]
       else []
     | none => [])
  let parts4 := parts3 ++
    (match ctx.context_parts with
     | some cps =>
       if cps ≠ [] then
         ["\nPièces existantes dans le projet:"] ++
           cps.map fun (p : String × String) =>
             "\n### " ++ p.1 ++ "\n```python\n" ++ p.2 ++ "\n```"
       else []
     | none => [])
  let parts5 := parts4 ++
    (match fixErrors with
     | some errs =>
       if errs ≠ [] then
         ["\n\n⚠️ ERREURS À CORRIGER:\n" ++
            String.intercalate "\n" (errs.map ("- " ++ ·)),
          "\nGénère une version corrigée du code."]
       else []
     | none => [])
  String.intercalate "\n" parts5

/-- `AgentService._run_design_agent`. -/
def runDesignAgent (o : PipelineOracles) (ctx : DesignContext)
    (fixErrors : Option (List String)) : DesignContext :=
  let user_prompt := designUserPrompt ctx fixErrors
  let system_prompt :=
    if ctx.has_images then SystemPrompt.designWithImage else SystemPrompt.designAgent
  let withFixes : Bool :=
    match fixErrors with
    | some errs => errs ≠ []
    | none => false
  match ctx.get_images_for_vision with
  | some imgs =>
    let content := o.visionLLM system_prompt user_prompt imgs
    -- `_generate_with_vision` returns `self._extract_code(content) or content`
    let code :=
      match extractCode content with
      | some e => if e ≠ "" then e else content
      | none => content
    { ctx with
      code := some code
      messages := ctx.messages ++
        [⟨.design, "Code generated" ++ (if withFixes then " with fixes" else "")⟩] }
  | none =>
    -- Text path: `generate_cad_code(user_prompt, provider,
    -- existing_code=None, context_parts=None, model=model, validate=True,
    -- auto_correct=True)`.  The keyword arguments must bind to the
    -- function's parameters, else `TypeError` is raised and caught here.
    if kwargsBind generateCadCodeParams designTextCallKwargs then
      { ctx with
        code := some (o.textLLM user_prompt)
        messages := ctx.messages ++
          [⟨.design, "Code generated" ++ (if withFixes then " with fixes" else "")⟩] }
    else
      { ctx with
        messages := ctx.messages ++
          [⟨.design, "Error: generate_cad_code() got an unexpected keyword argument \x27validate\x27"⟩] }

/-- `if static_result.corrected_code: context.code = …` (the corrected
code is never the empty string when present, so truthiness is presence). -/
def adoptCorrected (code0 : String) (static : ValidationResult) : String :=
  match static.corrected_code with
  | some c => c
  | none => code0

/-- Step 2 of `_run_validation_agent`: execute, store the bounding box,
check printability; exceptions inside the `try` append to `errors`. -/
def execStep (ctx1 : DesignContext) (errors0 warnings0 : List String)
    (er : ExecutionResult) : DesignContext × List String × List String :=
  if er.success then
    match er.bounding_box with
    | some bb =>
      let p := checkPrintability bb ctx1.printer_settings
      if p.1 then ({ ctx1 with bounding_box := some bb }, errors0, warnings0)
      else
        ({ ctx1 with bounding_box := some bb }, errors0,
          warnings0 ++ ["Part exceeds build volume: " ++ overflowRepr p.2])
    | none =>
      -- `context.bounding_box = exec_result.bounding_box` has run;
      -- `_check_printability(None, …)` raises AttributeError, caught by
      -- the surrounding `except Exception`.
      ({ ctx1 with bounding_box := none },
        errors0 ++ ["Execution failed: \x27NoneType\x27 object has no attribute \x27get\x27"],
        warnings0)
  else
    (ctx1, errors0 ++ ["Execution error: " ++ er.error.getD "None"], warnings0)

/-- Step 3 of `_run_validation_agent`: the fast-model review (only when no
errors so far), then the recorded validation result and trace message. -/
def finishValidation (o : PipelineOracles) (code1 : String)
    (st : DesignContext × List String × List String) : DesignContext :=
  match st with
  | (ctx2, errors1, warnings1) =>
    let review :=
      if errors1 = [] then o.validationReview code1 else none
    let sugg2 :=
      match review with
      | some (_, suggs) => ctx2.optimization_suggestions ++ suggs
      | none => ctx2.optimization_suggestions
    let warnings2 :=
      match review with
      | some (issues, _) => warnings1 ++ issues
      | none => warnings1
    { ctx2 with
      optimization_suggestions := sugg2
      validation_result := some ⟨errors1.isEmpty, errors1, warnings2⟩
      messages := ctx2.messages ++
        [⟨.validation,
          if errors1.isEmpty then "Valid"
          else "Invalid: " ++ toString errors1.length ++ " errors"⟩] }

/-- `AgentService._run_validation_agent`. -/
def runValidationAgent (o : PipelineOracles) (ctx : DesignContext) : DesignContext :=
  match ctx.code with
  | none =>
    { ctx with validation_result := some ⟨false, ["No code to validate"], []⟩ }
  | some code0 =>
    finishValidation o (adoptCorrected code0 (validate o.astError code0))
      (execStep { ctx with code := some (adoptCorrected code0 (validate o.astError code0)) }
        (validate o.astError code0).errors (validate o.astError code0).warnings
        (o.exec (adoptCorrected code0 (validate o.astError code0))))

/-- `AgentService._run_optimization_agent`. -/
def runOptimizationAgent (o : PipelineOracles) (ctx : DesignContext) : DesignContext :=
  if codeFalsy ctx || !validationValid ctx then ctx
  else
    match o.optimizationLLM ctx with
    | .error msg =>
      { ctx with messages := ctx.messages ++ [⟨.optimization, "Optimization failed: " ++ msg⟩] }
    | .ok content =>
      match extractCode content with
      | some ex =>
        if ex ≠ "" then
          let er := o.exec ex
          if er.success then
            { ctx with
              code := some ex
              bounding_box := er.bounding_box
              messages := ctx.messages ++ [⟨.optimization, "Code optimized for 3D printing"⟩] }
          else
            { ctx with
              messages := ctx.messages ++
                [⟨.optimization, "Optimization skipped - optimized code had errors"⟩] }
        else ctx
      | none => ctx

/-- `AgentService._run_review_agent`. -/
def runReviewAgent (o : PipelineOracles) (ctx : DesignContext) : DesignContext :=
  match o.reviewOutcome ctx with
  | .ok rd =>
    { ctx with
      optimization_suggestions := ctx.optimization_suggestions ++ rd.suggestions
      messages := ctx.messages ++ [⟨.review, "Score: " ++ rd.scoreRepr ++ "/10"⟩] }
  | .noJson => ctx
  | .exn msg =>
    { ctx with messages := ctx.messages ++ [⟨.review, "Review failed: " ++ msg⟩] }

/-- One round of the retry loop of `generate_with_agents` (step 3):
increment `iterations`, re-run Design with the collected error list,
re-run Validation. -/
def retryRound (o : PipelineOracles) (ctx : DesignContext) : DesignContext :=
  runValidationAgent o
    (runDesignAgent o { ctx with iterations := ctx.iterations + 1 }
      (some (validationErrors { ctx with iterations := ctx.iterations + 1 })))

/-- The retry loop of `generate_with_agents` (step 3).  `fuel` only bounds
the recursion; the loop condition `not valid and iterations <
max_iterations` increments `iterations` every round, so any fuel above
`max_iterations` is never exhausted. -/
def retryLoop (o : PipelineOracles) : ℕ → DesignContext → DesignContext
  | 0, ctx => ctx
  | fuel + 1, ctx =>
    if !validationValid ctx && ctx.iterations < ctx.max_iterations then
      retryLoop o fuel (retryRound o ctx)
    else ctx

/-- The result dict of `generate_with_agents`. -/
structure PipelineResponse where
  success : Bool
  code : Option String
  bounding_box : Option BBox
  validation : Option ValidationSummary
  suggestions : List String
  iterations : ℕ
  messages : List AgentMessage
  error : Option String
deriving Repr, DecidableEq

/-- `AgentService._build_response`. -/
def buildResponse (ctx : DesignContext) (success : Bool)
    (error : Option String := none) : PipelineResponse :=
  { success := success
    code := ctx.code
    bounding_box := ctx.bounding_box
    validation := ctx.validation_result
    suggestions := ctx.optimization_suggestions
    iterations := ctx.iterations
    messages := ctx.messages
    error := error }

/-- The initial context built by `generate_with_agents`. -/
def initialContext (prompt : String) (image_data : Option ImageData)
    (image_mime_type : Option String) (existing_code : Option String)
    (context_parts : Option (List (String × String)))
    (printer_settings : Option PrinterSettings) : DesignContext :=
  { original_prompt := prompt
    image_data := image_data
    image_mime_type := image_mime_type
    existing_code := existing_code
    context_parts := context_parts
    printer_settings := printer_settings.getD defaultPrinterSettings }

/-- Step 4 of `generate_with_agents`: Optimization (if enabled and
validation passed). -/
def optimizationStage (o : PipelineOracles) (use_optimization : Bool)
    (ctx3 : DesignContext) : DesignContext :=
  if use_optimization && validationValid ctx3 then runOptimizationAgent o ctx3
  else ctx3

/-- Step 5 of `generate_with_agents`: Review (if enabled, an image is
present and validation passed). -/
def reviewStage (o : PipelineOracles) (use_review : Bool)
    (ctx4 : DesignContext) : DesignContext :=
  if use_review && imageTruthy ctx4 && validationValid ctx4 then runReviewAgent o ctx4
  else ctx4

/-- Steps 3–5 of `generate_with_agents` on the context left by the first
Validation. -/
def pipelineTail (o : PipelineOracles) (use_optimization use_review : Bool)
    (ctx2 : DesignContext) : PipelineResponse :=
  buildResponse
    (reviewStage o use_review
      (optimizationStage o use_optimization (retryLoop o (ctx2.max_iterations + 1) ctx2)))
    (validationValid
      (reviewStage o use_review
        (optimizationStage o use_optimization (retryLoop o (ctx2.max_iterations + 1) ctx2))))

/-- The context after step 1 (the first Design run). -/
def firstDesign (o : PipelineOracles) (prompt : String)
    (image_data : Option ImageData) (image_mime_type : Option String)
    (existing_code : Option String)
    (context_parts : Option (List (String × String)))
    (printer_settings : Option PrinterSettings) : DesignContext :=
  runDesignAgent o
    (initialContext prompt image_data image_mime_type existing_code
      context_parts printer_settings) none

/-- The context after step 2 (the first Validation run). -/
def firstValidation (o : PipelineOracles) (prompt : String)
    (image_data : Option ImageData) (image_mime_type : Option String)
    (existing_code : Option String)
    (context_parts : Option (List (String × String)))
    (printer_settings : Option PrinterSettings) : DesignContext :=
  runValidationAgent o
    (firstDesign o prompt image_data image_mime_type existing_code
      context_parts printer_settings)

/-- `AgentService.generate_with_agents`. -/
def generate_with_agents (o : PipelineOracles) (prompt : String)
    (image_data : Option ImageData := none)
    (image_mime_type : Option String := none)
    (existing_code : Option String := none)
    (context_parts : Option (List (String × String)) := none)
    (printer_settings : Option PrinterSettings := none)
    (use_optimization : Bool := true) (use_review : Bool := true) :
    PipelineResponse :=
  if codeFalsy (firstDesign o prompt image_data image_mime_type existing_code
      context_parts printer_settings) then
    buildResponse
      (firstDesign o prompt image_data image_mime_type existing_code
        context_parts printer_settings)
      false (some "Design agent failed to generate code")
  else
    pipelineTail o use_optimization use_review
      (firstValidation o prompt image_data image_mime_type existing_code
        context_parts printer_settings)

/-! ## Conversation Engine (`services/conversation_service.py`)

Message ids (`uuid4`) and timestamps are identity data never branched on;
messages are embedded as `(type, agent_role, content)`.  The free-form
`data` payloads are likewise not modelled.  Handlers take a `now` string
(the request's `datetime.utcnow().isoformat()` values) for `updated_at`.
Each handler also returns the list of assignments it made to
`session.phase` (`phaseTrace`) as an observation of transition events. -/
inductive ConversationPhase
  | gathering
  | analyzing
  | designing
  | reviewing
  | finalizing
  | complete
deriving Repr, DecidableEq

inductive MessageType
  | user
  | agent
  | question
  | suggestion
  | code
  | validation
  | system
deriving Repr, DecidableEq

inductive ConvAgentRole
  | coordinator
  | requirements
  | designer
  | engineer
  | physics
  | manufacturing
  | validator
deriving Repr, DecidableEq

structure ConversationMessage where
  type : MessageType
  agent_role : Option ConvAgentRole := none
  content : String
deriving Repr, DecidableEq

/-- `conversation_service.DesignRequirements`. -/
structure DesignRequirements where
  description : String := ""
  purpose : String := ""
  dimensions_specified : Bool := false
  length : Option Dec := none
  width : Option Dec := none
  height : Option Dec := none
  needs_structural_analysis : Bool := false
  expected_load : Option Dec := none
  material : String := "PLA"
  wall_thickness : Option Dec := none
  style : String := ""
  finish : String := ""
  has_fillets : Bool := true
  fillet_radius : Option Dec := none
  features : List String := []
  printer_type : String := "FDM"
  max_build_volume : Option BBox := none
  layer_height : Dec := ⟨2, 1⟩
  needs_supports : Option Bool := none
  orientation_preference : Option String := none
  is_part_of_assembly : Bool := false
  mating_parts : List String := []
  tolerances : List (String × Dec) := []
  confidence : List (String × Dec) :=
    [("dimensions", 0), ("purpose", 0), ("features", 0), ("manufacturing", 0)]
deriving Repr, DecidableEq

structure ImageAttachment where
  id : String
  data : String
  mime_type : String
  name : String := ""
  is_sketch : Bool := false
deriving Repr, DecidableEq

structure ConversationSession where
  id : String
  part_id : Option String := none
  phase : ConversationPhase
  messages : List ConversationMessage := []
  requirements : DesignRequirements := {}
  generated_code : Option String := none
  attachments : List ImageAttachment := []
  image_data : Option String := none
  image_mime_type : Option String := none
  context_parts : Option (List (String × String)) := none
  created_at : String := ""
  updated_at : String := ""
deriving Repr, DecidableEq

/-- `ConversationSession.add_message` (advances `updated_at`). -/
def addMessage (s : ConversationSession) (type : MessageType)
    (agent_role : Option ConvAgentRole) (content : String) (now : String) :
    ConversationSession :=
  { s with
    messages := s.messages ++ [⟨type, agent_role, content⟩]
    updated_at := now }

/-- `ConversationSession.get_all_images` (legacy single image only used
when no attachments are present). -/
def sessionAllImages (s : ConversationSession) : List (String × String) :=
  (s.attachments.map fun a => (a.data, a.mime_type)) ++
    (match s.image_data with
     | some d =>
       if d ≠ "" ∧ s.attachments = [] then
         [(d, match s.image_mime_type with
              | some m => if m ≠ "" then m else "image/jpeg"
              | none => "image/jpeg")]
       else []
     | none => [])

/-- `ConversationService.add_attachment` (on a session already looked
up; the service itself has no attachment cap). -/
def serviceAddAttachment (newId now : String) (s : ConversationSession)
    (data mime_type name : String) (is_sketch : Bool) :
    ImageAttachment × ConversationSession :=
  let att : ImageAttachment :=
    { id := newId
      data := data
      mime_type := mime_type
      name := if name ≠ "" then name else "Attachment " ++ toString (s.attachments.length + 1)
      is_sketch := is_sketch }
  (att, { s with attachments := s.attachments ++ [att], updated_at := now })

/-! Partial JSON updates merged by `_update_requirements`.  An outer
`Option` is JSON-key presence (for the sub-dicts: presence and
non-emptiness, matching the `if dims:` truthiness guards); a nested inner
`Option` is the JSON value, which may be `null`. -/
structure DimUpdates where
  specified : Option Bool := none
  length : Option (Option Dec) := none
  width : Option (Option Dec) := none
  height : Option (Option Dec) := none
deriving Repr, DecidableEq

structure PhysUpdates where
  needs_structural_analysis : Option Bool := none
  expected_load : Option (Option Dec) := none
  material : Option String := none
  wall_thickness : Option (Option Dec) := none
deriving Repr, DecidableEq

structure AestUpdates where
  style : Option String := none
  finish : Option String := none
  has_fillets : Option Bool := none
  fillet_radius : Option (Option Dec) := none
deriving Repr, DecidableEq

structure MfgUpdates where
  printer_type : Option String := none
  layer_height : Option Dec := none
  needs_supports : Option (Option Bool) := none
  orientation_preference : Option (Option String) := none
deriving Repr, DecidableEq

structure AsmUpdates where
  is_part_of_assembly : Option Bool := none
  mating_parts : Option (List String) := none
  tolerances : Option (List (String × Dec)) := none
deriving Repr, DecidableEq

structure ReqUpdates where
  description : Option String := none
  purpose : Option String := none
  dimensions : Option DimUpdates := none
  physical : Option PhysUpdates := none
  aesthetics : Option AestUpdates := none
  features : Option (List String) := none
  manufacturing : Option MfgUpdates := none
  assembly : Option AsmUpdates := none
deriving Repr, DecidableEq

/-- `ConversationService._update_requirements`. -/
def updateRequirements (r : DesignRequirements) (u : ReqUpdates) :
    DesignRequirements :=
  let r1 := { r with
    description := u.description.getD r.description
    purpose := u.purpose.getD r.purpose }
  let r2 :=
    match u.dimensions with
    | some d =>
      { r1 with
        dimensions_specified := d.specified.getD r1.dimensions_specified
        length := match d.length with | some v => v | none => r1.length
        width := match d.width with | some v => v | none => r1.width
        height := match d.height with | some v => v | none => r1.height }
    | none => r1
  let r3 :=
    match u.physical with
    | some p =>
      { r2 with
        needs_structural_analysis := p.needs_structural_analysis.getD r2.needs_structural_analysis
        expected_load := match p.expected_load with | some v => v | none => r2.expected_load
        material := p.material.getD r2.material
        wall_thickness := match p.wall_thickness with | some v => v | none => r2.wall_thickness }
    | none => r2
  let r4 :=
    match u.aesthetics with
    | some a =>
      { r3 with
        style := a.style.getD r3.style
        finish := a.finish.getD r3.finish
        has_fillets := a.has_fillets.getD r3.has_fillets
        fillet_radius := match a.fillet_radius with | some v => v | none => r3.fillet_radius }
    | none => r3
  let r5 :=
    match u.features with
    | some fs => { r4 with features := fs }
    | none => r4
  let r6 :=
    match u.manufacturing with
    | some m =>
      { r5 with
        printer_type := m.printer_type.getD r5.printer_type
        layer_height := m.layer_height.getD r5.layer_height
        needs_supports := match m.needs_supports with | some v => v | none => r5.needs_supports
        orientation_preference :=
          match m.orientation_preference with | some v => v | none => r5.orientation_preference }
    | none => r5
  match u.assembly with
  | some a =>
    { r6 with
      is_part_of_assembly := a.is_part_of_assembly.getD r6.is_part_of_assembly
      mating_parts := a.mating_parts.getD r6.mating_parts
      tolerances := a.tolerances.getD r6.tolerances }
  | none => r6

/-- `dict.update` on the confidence mapping. -/
def dictUpdateQ (m other : List (String × Dec)) : List (String × Dec) :=
  other.foldl (fun acc kv => dictInsert acc kv.1 kv.2) m

/-- The next-question payload of the requirements agent's JSON. -/
structure QuestionData where
  content : String
  options : List String := []
  agent : String := "requirements"
deriving Repr, DecidableEq

/-- The requirements agent's JSON reply fields read by the handler. -/
structure GatherData where
  updated_requirements : ReqUpdates := {}
  confidence_scores : Option (List (String × Dec)) := none
  ready_to_design : Bool := false
  next_question : Option QuestionData := none
  summary : String := ""
deriving Repr, DecidableEq

/-- The specialist agents' JSON reply fields read by the handler. -/
structure AnalysisData where
  recommendations : List String := []
  design_approach : String := ""
  structural_assessment : String := ""
  recommended_wall_thickness : Option Dec := none
  printability_score : Option Dec := none
  optimal_orientation : String := ""
  concerns : List String := []
  potential_issues : List String := []
deriving Repr, DecidableEq

/-- An external LLM call's outcome, together with its wall-clock latency
(used to model the sequencing of `await`s). -/
structure TimedOutcome (α : Type) where
  dur : ℕ
  out : RawOutcome α

/-- Arguments of the `agent_service.generate_with_agents` call made by
`_start_design_phase`. -/
structure PipelineArgs where
  prompt : String
  image_data : Option ImageData := none
  context_parts : Option (List (String × String)) := none
  use_optimization : Bool := true
  use_review : Bool := true
deriving Repr, DecidableEq

/-- Oracles for the conversation engine's external calls. -/
structure ConvOracles where
  /-- Requirements agent `generate_raw` + JSON extraction. -/
  requirementsAgent : ConversationSession → TimedOutcome GatherData
  /-- Designer specialist call. -/
  designerAgent : DesignRequirements → TimedOutcome AnalysisData
  /-- Physics specialist call. -/
  physicsAgent : DesignRequirements → TimedOutcome AnalysisData
  /-- Manufacturing specialist call. -/
  manufacturingAgent : DesignRequirements → TimedOutcome AnalysisData
  /-- `agent_service.generate_with_agents` as invoked by
  `_start_design_phase` (the pipeline itself is embedded separately as
  `generate_with_agents`). -/
  agentPipeline : PipelineArgs → PipelineResponse

/-- Python truthiness of `requirements.expected_load` (`None` and `0` are
falsy). -/
def expectedLoadTruthy (r : DesignRequirements) : Bool :=
  match r.expected_load with
  | some v => !Dec.isZero v
  | none => false

/-- JSON number repr (ints render without a decimal point). -/
def numRepr (v : Dec) : String :=
  if Dec.isInt v then toString (Dec.norm v).mant else pyFloatStr v

/-- `ConversationService._compile_analysis_summary`. -/
def compileAnalysisSummary (analyses : List (String × AnalysisData)) : String :=
  let parts := ["Voici l\x27analyse de notre équipe:\n"] ++
    analyses.flatMap fun (p : String × AnalysisData) =>
      if p.1 = "designer" then
        ["**Designer:**"] ++
          (if p.2.design_approach ≠ "" then ["  Approche: " ++ p.2.design_approach] else []) ++
          (if p.2.recommendations ≠ [] then
            ["  Recommandations: " ++ String.intercalate ", " (p.2.recommendations.take 3)]
           else [])
      else if p.1 = "physics" then
        ["**Ingénieur Mécanique:**"] ++
          (if p.2.structural_assessment ≠ "" then ["  Analyse: " ++ p.2.structural_assessment] else []) ++
          (match p.2.recommended_wall_thickness with
           | some v => if !Dec.isZero v then ["  Épaisseur recommandée: " ++ numRepr v ++ "mm"] else []
           | none => [])
      else if p.1 = "manufacturing" then
        ["**Expert Fabrication:**"] ++
          (match p.2.printability_score with
           | some v => if !Dec.isZero v then ["  Score d\x27imprimabilité: " ++ numRepr v ++ "/10"] else []
           | none => []) ++
          (if p.2.optimal_orientation ≠ "" then ["  Orientation: " ++ p.2.optimal_orientation] else []) ++
          (if p.2.potential_issues ≠ [] then
            ["  Points d\x27attention: " ++ String.intercalate ", " (p.2.potential_issues.take 2)]
           else [])
      else []
  String.intercalate "\n" parts

/-- `ConversationService._extract_concerns`. -/
def extractConcerns (analyses : List (String × AnalysisData)) : List String :=
  (analyses.foldl
    (fun acc (p : String × AnalysisData) =>
      acc ++ p.2.concerns.take 2 ++ p.2.potential_issues.take 2) []).take 5

/-- The specialist fan-out section of `_transition_to_analyzing` (lines
543–638): three `await`ed calls, each in its own `try/except`, one after
another.  Returns the accumulated `analyses` and the elapsed wall time:
each `await` completes before the next statement starts, so latencies
add. -/
def analyzeFanOut (o : ConvOracles) (req : DesignRequirements) :
    List (String × AnalysisData) × ℕ :=
  let d := o.designerAgent req
  let analyses1 : List (String × AnalysisData) :=
    match d.out with
    | .ok a => [("designer", a)]
    | _ => []
  let physicsNeeded := req.needs_structural_analysis || expectedLoadTruthy req
  let step2 : List (String × AnalysisData) × ℕ :=
    if physicsNeeded then
      let p := o.physicsAgent req
      (analyses1 ++
        (match p.out with
         | .ok a => [("physics", a)]
         | _ => []), d.dur + p.dur)
    else (analyses1, d.dur)
  let m := o.manufacturingAgent req
  (step2.1 ++
    (match m.out with
     | .ok a => [("manufacturing", a)]
     | _ => []), step2.2 + m.dur)

/-- Handler result (`{"session": …, "needs_response": …, "complete": …}`),
plus the `phaseTrace` observation. -/
structure StepOutcome where
  session : ConversationSession
  needs_response : Bool
  complete : Bool := false
  phaseTrace : List ConversationPhase := []
deriving Repr, DecidableEq

/-- `ConversationService._build_design_prompt`. -/
def buildDesignPrompt (r : DesignRequirements) : String :=
  let parts := ["Crée une pièce 3D: " ++ r.description]
  let parts := parts ++ (if r.purpose ≠ "" then ["Usage: " ++ r.purpose] else [])
  let parts := parts ++
    (if r.dimensions_specified then
      let dims :=
        (match r.length with
         | some v => if !Dec.isZero v then ["longueur=" ++ numRepr v ++ "mm"] else []
         | none => []) ++
        (match r.width with
         | some v => if !Dec.isZero v then ["largeur=" ++ numRepr v ++ "mm"] else []
         | none => []) ++
        (match r.height with
         | some v => if !Dec.isZero v then ["hauteur=" ++ numRepr v ++ "mm"] else []
         | none => [])
      if dims ≠ [] then ["Dimensions: " ++ String.intercalate ", " dims] else []
     else [])
  let parts := parts ++
    (match r.wall_thickness with
     | some v => if !Dec.isZero v then ["Épaisseur de paroi: " ++ numRepr v ++ "mm"] else []
     | none => [])
  let parts := parts ++
    (if r.features ≠ [] then ["Features: " ++ String.intercalate ", " r.features] else [])
  let parts := parts ++ (if r.style ≠ "" then ["Style: " ++ r.style] else [])
  let parts := parts ++ (if r.material ≠ "PLA" then ["Matériau: " ++ r.material] else [])
  let parts := parts ++
    (match r.expected_load with
     | some v => if !Dec.isZero v then ["Charge attendue: " ++ numRepr v ++ "kg"] else []
     | none => [])
  let parts := parts ++
    (if r.is_part_of_assembly then
      ["Fait partie d\x27un assemblage avec: " ++ String.intercalate ", " r.mating_parts]
     else [])
  String.intercalate "\n" parts

/-- Truthiness of `result["success"] and result["code"]`. -/
def pipelineAccepted (result : PipelineResponse) : Bool :=
  result.success &&
    (match result.code with
     | some c => c ≠ ""
     | none => false)

/-- The part of `_start_design_phase` following the pipeline call. -/
def startDesignPhaseResult (now : String) (s1 : ConversationSession)
    (result : PipelineResponse) : StepOutcome :=
  if pipelineAccepted result then
    let s2 := { s1 with generated_code := result.code, phase := .finalizing }
    let s3 := addMessage s2 .code (some .engineer) "Voici le code généré:" now
    let s4 :=
      match result.validation with
      | some v =>
        if v.warnings ≠ [] then
          addMessage s3 .validation (some .validator)
            ("Quelques notes:\n" ++ String.intercalate "\n" (v.warnings.map ("• " ++ ·))) now
        else s3
      | none => s3
    let s5 :=
      if result.suggestions ≠ [] then
        addMessage s4 .suggestion (some .coordinator)
          ("Suggestions d\x27amélioration:\n" ++
            String.intercalate "\n" (result.suggestions.map ("• " ++ ·))) now
      else s4
    let s6 := addMessage s5 .question (some .coordinator)
      "Le design est prêt ! Souhaitez-vous des modifications ou puis-je finaliser ?" now
    { session := s6, needs_response := true, phaseTrace := [.finalizing] }
  else
    let s2 := addMessage s1 .agent (some .engineer)
      ("Désolé, j\x27ai rencontré un problème: " ++
        (match result.error with
         | some e => e
         | none => "None") ++
        ". Voulez-vous réessayer avec des paramètres différents ?") now
    let s3 := { s2 with phase := .reviewing }
    { session := s3, needs_response := true, phaseTrace := [.reviewing] }

/-- `ConversationService._start_design_phase`. -/
def startDesignPhase (o : ConvOracles) (now : String) (s : ConversationSession) :
    StepOutcome :=
  let s1 := addMessage s .agent (some .engineer)
    "Je commence la conception avec notre meilleur modèle. Cela peut prendre quelques instants..." now
  let design_prompt := buildDesignPrompt s1.requirements
  let images := sessionAllImages s1
  let has_visuals := images.length > 0
  let result := o.agentPipeline
    { prompt := design_prompt
      image_data := if images ≠ [] then some (.multi images) else none
      context_parts := s1.context_parts
      use_optimization := true
      use_review := has_visuals }
  startDesignPhaseResult now s1 result

/-- The branch of `_transition_to_analyzing` taken after the specialist
analyses are compiled: Reviewing when concerns surfaced, else Designing. -/
def analyzingDecision (o : ConvOracles) (now : String)
    (s2 : ConversationSession) (concerns : List String) : StepOutcome :=
  if concerns ≠ [] then
    let s3 := addMessage s2 .question (some .coordinator)
      ("Nos spécialistes ont quelques questions avant de continuer:\n\n" ++
        String.intercalate "\n" (concerns.map ("• " ++ ·)) ++
        "\n\nVoulez-vous ajuster quelque chose ou puis-je lancer la conception ?") now
    let s4 := { s3 with phase := .reviewing }
    { session := s4, needs_response := true, phaseTrace := [.reviewing] }
  else
    let s3 := { s2 with phase := .designing }
    let r := startDesignPhase o now s3
    { r with phaseTrace := .designing :: r.phaseTrace }

/-- `ConversationService._transition_to_analyzing`. -/
def transitionToAnalyzing (o : ConvOracles) (now : String)
    (s : ConversationSession) : StepOutcome :=
  let s1 := addMessage s .agent (some .coordinator)
    "Parfait ! J\x27ai maintenant assez d\x27informations. Laissez-moi consulter nos spécialistes..." now
  let fan := analyzeFanOut o s1.requirements
  let analyses := fan.1
  let s2 := addMessage s1 .agent (some .coordinator) (compileAnalysisSummary analyses) now
  analyzingDecision o now s2 (extractConcerns analyses)

/-- `ConversationService._get_agent_role`. -/
def getAgentRole (nm : String) : ConvAgentRole :=
  match lowerStr nm with
  | "coordinator" => .coordinator
  | "requirements" => .requirements
  | "designer" => .designer
  | "engineer" => .engineer
  | "physics" => .physics
  | "manufacturing" => .manufacturing
  | "validator" => .validator
  | _ => .requirements

/-- `ConversationService._handle_gathering_phase`. -/
def handleGatheringPhase (o : ConvOracles) (now : String)
    (s : ConversationSession) : StepOutcome :=
  match (o.requirementsAgent s).out with
  | .ok data =>
    let req1 := updateRequirements s.requirements data.updated_requirements
    let req2 :=
      match data.confidence_scores with
      | some cs => { req1 with confidence := dictUpdateQ req1.confidence cs }
      | none => req1
    let s1 := { s with requirements := req2 }
    let s2 :=
      if data.summary ≠ "" then
        addMessage s1 .agent (some .requirements) data.summary now
      else s1
    if data.ready_to_design then
      let s3 := { s2 with phase := .analyzing }
      let r := transitionToAnalyzing o now s3
      { r with phaseTrace := .analyzing :: r.phaseTrace }
    else
      match data.next_question with
      | some q =>
        let s3 := addMessage s2 .question (some (getAgentRole q.agent)) q.content now
        { session := s3, needs_response := true }
      | none => { session := s2, needs_response := true }
  | .noJson => { session := s, needs_response := true }
  | .exn msg =>
    let s1 := addMessage s .system none ("Erreur lors de l\x27analyse: " ++ msg) now
    { session := s1, needs_response := true }

/-- Python truthiness-based keyword scan over the (lowered) last message. -/
def lastMessageLower (s : ConversationSession) : String :=
  match s.messages.getLast? with
  | some m => lowerStr m.content
  | none => ""

def anyWordIn (words : List String) (msg : String) : Bool :=
  words.any fun w => occurs w.data msg.data

/-- `ConversationService._handle_reviewing_phase`. -/
def handleReviewingPhase (o : ConvOracles) (now : String)
    (s : ConversationSession) : StepOutcome :=
  let last := lastMessageLower s
  if anyWordIn ["lancer", "continuer", "ok", "oui", "génère", "go"] last then
    let s1 := { s with phase := .designing }
    let r := startDesignPhase o now s1
    { r with phaseTrace := .designing :: r.phaseTrace }
  else
    let s1 := { s with phase := .gathering }
    let s2 := addMessage s1 .question (some .requirements)
      "D\x27accord, quelles modifications souhaitez-vous apporter ?" now
    { session := s2, needs_response := true, phaseTrace := [.gathering] }

/-- `ConversationService._handle_finalizing_phase`. -/
def handleFinalizingPhase (o : ConvOracles) (now : String)
    (s : ConversationSession) : StepOutcome :=
  let last := lastMessageLower s
  if anyWordIn ["finaliser", "ok", "oui", "valider", "parfait"] last then
    let s1 := { s with phase := .complete }
    let s2 := addMessage s1 .agent (some .coordinator)
      "Excellent ! Le design est finalisé. Vous pouvez maintenant l\x27exécuter et l\x27exporter." now
    { session := s2, needs_response := false, complete := true, phaseTrace := [.complete] }
  else if anyWordIn ["modifier", "change", "ajuste"] last then
    let s1 := addMessage s .question (some .engineer)
      "Quelles modifications souhaitez-vous ?" now
    { session := s1, needs_response := true }
  else if anyWordIn ["recommencer", "refaire"] last then
    let s1 := { s with
      phase := .gathering
      requirements := { description := s.requirements.description }
      generated_code := none }
    let s2 := addMessage s1 .question (some .requirements)
      "D\x27accord, recommençons. Pouvez-vous me décrire à nouveau ce que vous souhaitez créer ?" now
    { session := s2, needs_response := true, phaseTrace := [.gathering] }
  else
    let s1 := { s with
      phase := .designing
      requirements := { s.requirements with
        description := s.requirements.description ++
          "\n\nModification demandée: " ++
          (match s.messages.getLast? with
           | some m => m.content
           | none => "") } }
    let r := startDesignPhase o now s1
    { r with phaseTrace := .designing :: r.phaseTrace }

/-- `ConversationService.process_user_message`. -/
def processUserMessage (o : ConvOracles) (now : String)
    (s : ConversationSession) (message : String) : StepOutcome :=
  let s0 := addMessage s .user none message now
  match s0.phase with
  | .gathering => handleGatheringPhase o now s0
  | .analyzing => transitionToAnalyzing o now s0
  | .designing => startDesignPhase o now s0
  | .reviewing => handleReviewingPhase o now s0
  | .finalizing => handleFinalizingPhase o now s0
  | .complete => { session := s0, needs_response := false }

/-! ## Attachment route (`routers/conversations.py`) -/
/-- The upload as seen by the route (`payload` is the base64 of the bytes
read; the encoding itself is external). -/
structure UploadFile where
  content_type : String
  payload : String
  filename : Option String := none
deriving Repr, DecidableEq

inductive RouteResult (α : Type)
  | ok (a : α)
  | httpError (status : ℕ) (detail : String)
deriving Repr, DecidableEq

structure AddAttachmentResp where
  status : String
  attachment_id : String
  total_attachments : ℕ
deriving Repr, DecidableEq

def ALLOWED_IMAGE_TYPES : List String :=
  ["image/jpeg", "image/png", "image/gif", "image/webp"]

/-- `add_attachment_to_session` (POST `/{session_id}/add-attachment`):
session lookup, the 10-attachment cap, the mime filter, then the service
append.  Returns the response and the session as left by the request. -/
def addAttachmentRoute (newId now : String)
    (session : Option ConversationSession) (image : UploadFile)
    (name : String) (is_sketch : Bool) :
    RouteResult AddAttachmentResp × Option ConversationSession :=
  match session with
  | none => (.httpError 404 "Conversation not found", none)
  | some s =>
    if s.attachments.length ≥ 10 then
      (.httpError 400 "Maximum 10 attachments reached", some s)
    else if !(ALLOWED_IMAGE_TYPES.contains image.content_type) then
      (.httpError 400
        ("Invalid image type. Allowed: " ++ String.intercalate ", " ALLOWED_IMAGE_TYPES),
       some s)
    else
      -- `name=name or image.filename or ""`
      let nameArg :=
        if name ≠ "" then name
        else match image.filename with
          | some f => if f ≠ "" then f else ""
          | none => ""
      let r := serviceAddAttachment newId now s image.payload image.content_type
        nameArg is_sketch
      (.ok { status := "added"
             attachment_id := r.1.id
             total_attachments := r.2.attachments.length },
       some r.2)

/-! ## Sample data for witnesses -/
/-- A sample attachment. -/
def sampleAttachment : ImageAttachment :=
  { id := "att0", data := "aGk=", mime_type := "image/png" }

/-- A session already holding exactly 10 attachments. -/
def sampleSessionTen : ConversationSession :=
  { id := "sess1", phase := .gathering
    attachments := List.replicate 10 sampleAttachment }

/-- Pipeline oracles for a concrete retry run: the first (vision) design
reply lacks the `result` variable, the reply to a fix-request prompt is
valid; execution always succeeds with a small bounding box; optimization
and review are not exercised. -/
def c4Oracles : PipelineOracles :=
  { visionLLM := fun _ user _ =>
      if strContains user "ERREURS" then
        "```python\nimport cadquery as cq\nresult = 1\n```"
      else
        "```python\nimport cadquery as cq\nx = 1\n```"
    textLLM := fun _ => ""
    validationReview := fun _ => none
    optimizationLLM := fun _ => .error "untouched"
    reviewOutcome := fun _ => .noJson
    exec := fun _ => { success := true, bounding_box := some ⟨10, 10, 10⟩ }
    astError := fun _ => none }

/-- The concrete retry run of C4. -/
def c4Run : PipelineResponse :=
  generate_with_agents c4Oracles "un cylindre"
    (some (.multi [("imgdata", "image/png")])) none none none none false false

/-- Pipeline oracles for a concrete oversized-part run: design produces a
valid script, execution reports a bounding box whose x-extent (300 mm)
exceeds the default 220 mm build volume. -/
def c3Oracles : PipelineOracles :=
  { visionLLM := fun _ _ _ => "```python\nimport cadquery as cq\nresult = 1\n```"
    textLLM := fun _ => ""
    validationReview := fun _ => none
    optimizationLLM := fun _ => .error "untouched"
    reviewOutcome := fun _ => .noJson
    exec := fun _ => { success := true, bounding_box := some ⟨300, 10, 10⟩ }
    astError := fun _ => none }

/-- The concrete oversized-part run of C3. -/
def c3Run : PipelineResponse :=
  generate_with_agents c3Oracles "une très grande pièce"
    (some (.multi [("imgdata", "image/png")])) none none none none false false

/-- A pipeline response used as a dummy value for unused oracle fields. -/
def nullPipelineResponse : PipelineResponse :=
  { success := false, code := none, bounding_box := none, validation := none
    suggestions := [], iterations := 0, messages := [], error := none }

/-- Conversation oracles for concrete runs: the designer reply takes 2
time units, manufacturing takes 3, physics is never consulted; the
requirements agent reports `ready_to_design` with a low dimensions
confidence; the specialist replies carry no JSON. -/
def sampleConvOracles : ConvOracles :=
  { requirementsAgent := fun _ =>
      ⟨1, .ok { ready_to_design := true
                confidence_scores := some [("dimensions", ⟨2, 1⟩)] }⟩
    designerAgent := fun _ => ⟨2, .noJson⟩
    physicsAgent := fun _ => ⟨7, .noJson⟩
    manufacturingAgent := fun _ => ⟨3, .noJson⟩
    agentPipeline := fun _ => nullPipelineResponse }

/-- A requirements snapshot with no structural-analysis triggers. -/
def sampleReq : DesignRequirements := {}

/-- A fresh session in the Gathering phase. -/
def sampleGatherSession : ConversationSession :=
  { id := "sess2", phase := .gathering }


/-- A positive `skip` just drops that many characters before scanning. -/
theorem replaceAllAux_skip (pat repl : List Char) :
    ∀ (skip : ℕ) (s : List Char),
      replaceAllAux pat repl skip s = replaceAllAux pat repl 0 (s.drop skip) := by
  intro skip
  induction skip with
  | zero => intro s; rw [List.drop_zero]
  | succ k ih =>
    intro s
    cases s with
    | nil => rfl
    | cons c rest =>
      rw [replaceAllAux, ih rest]
      rfl

/-- The defining scan equation of `replaceAll`. -/
theorem replaceAll_cons (pat repl : List Char) (c : Char) (rest : List Char) :
    replaceAll pat repl (c :: rest) =
      if pat.isPrefixOf (c :: rest) then
        repl ++ replaceAll pat repl (rest.drop (pat.length - 1))
      else c :: replaceAll pat repl rest := by
  unfold replaceAll
  rw [replaceAllAux, replaceAllAux_skip pat repl (pat.length - 1) rest]

/-! ## Rewrite-machinery lemmas -/
theorem occurs_nil_of_ne_nil {pat : List Char} (h : pat ≠ []) :
    occurs pat [] = false := by
  cases pat with
  | nil => exact absurd rfl h
  | cons c cs => simp [occurs, List.isPrefixOf]

theorem occurs_cons (pat : List Char) (c : Char) (rest : List Char) :
    occurs pat (c :: rest) = (pat.isPrefixOf (c :: rest) || occurs pat rest) := by
  simp [occurs, List.tails]

/-- If the pattern occurs nowhere, `replaceAll` is the identity. -/
theorem replaceAll_of_not_occurs (pat repl : List Char) :
    ∀ s : List Char, occurs pat s = false → replaceAll pat repl s = s := by
  intro s
  induction s with
  | nil => intro _; rfl
  | cons c rest ih =>
    intro h
    rw [occurs_cons] at h
    simp only [Bool.or_eq_false_iff] at h
    rw [replaceAll_cons]
    simp [h.1, ih h.2]

theorem joinSep_cons_of_ne_nil (sep : List Char) (u : List Char) {us : List (List Char)}
    (h : us ≠ []) : joinSep sep (u :: us) = u ++ (sep ++ joinSep sep us) := by
  cases us with
  | nil => exact absurd rfl h
  | cons v vs => rfl

theorem agree_of_prefix_append (q : List Char) :
    ∀ (r t : List Char), q <+: r ++ t → agree q r = true := by
  induction q with
  | nil => intro r t _; cases r <;> simp [agree]
  | cons x qs ih =>
    intro r t h
    cases r with
    | nil => simp [agree]
    | cons y rs =>
      obtain ⟨w, hw⟩ := h
      simp only [List.cons_append] at hw
      injection hw with h1 h2
      subst h1
      simp only [agree, decide_eq_true_eq, Bool.and_eq_true, decide_eq_true_iff]
      exact ⟨trivial, ih rs t ⟨w, h2⟩⟩

theorem isPrefixOf_append_eq_false_of_agree (q a suf : List Char)
    (h : agree q a = false) : q.isPrefixOf (a ++ suf) = false := by
  induction q generalizing a with
  | nil => simp [agree] at h
  | cons x qs ih =>
    cases a with
    | nil => simp [agree] at h
    | cons y as =>
      simp only [agree, Bool.and_eq_false_iff] at h
      simp only [List.cons_append, List.isPrefixOf, Bool.and_eq_false_iff]
      rcases h with h | h
      · left; simpa using h
      · right; exact ih as h

theorem occurs_characterization (q s : List Char) : occurs q s = true ↔ q <:+: s := by
  unfold occurs
  rw [List.any_eq_true]
  constructor
  · rintro ⟨t, ht, hpt⟩
    rw [List.mem_tails] at ht
    rw [List.isPrefixOf_iff_prefix] at hpt
    exact List.infix_iff_prefix_suffix.mpr ⟨t, hpt, ht⟩
  · intro h
    obtain ⟨t, hpt, ht⟩ := List.infix_iff_prefix_suffix.mp h
    exact ⟨t, (List.mem_tails _ _).mpr ht, List.isPrefixOf_iff_prefix.mpr hpt⟩

theorem occurs_of_infix {q s t : List Char} (hst : t <:+: s)
    (h : occurs q t = true) : occurs q s = true := by
  rw [occurs_characterization] at h ⊢
  exact h.trans hst

/-- Splitting an occurrence across a concatenation. -/
theorem occurs_append (q : List Char) (hq : q ≠ []) :
    ∀ (u v : List Char), occurs q (u ++ v) = true →
      occurs q u = true ∨ occurs q v = true ∨
        ∃ j, 0 < j ∧ j < q.length ∧ q.take j <:+ u ∧ q.drop j <+: v := by
  intro u
  induction u with
  | nil => intro v h; right; left; simpa using h
  | cons c u' ih =>
    intro v h
    rw [List.cons_append, occurs_cons] at h
    rcases Bool.or_eq_true_iff.mp h with hpre | hrest
    · -- q is a prefix of (c :: u') ++ v
      rw [← List.cons_append, List.isPrefixOf_iff_prefix] at hpre
      by_cases hlen : q.length ≤ (c :: u').length
      · left
        rw [occurs_characterization]
        have hq2 : q = (c :: u').take q.length := by
          have h0 : q = ((c :: u') ++ v).take q.length := by
            rw [List.prefix_iff_eq_take] at hpre; exact hpre
          rwa [List.take_append_of_le_length hlen] at h0
        rw [hq2]
        exact (List.take_prefix _ _).isInfix
      · push_neg at hlen
        right; right
        refine ⟨(c :: u').length, by simp, hlen, ?_, ?_⟩
        · have hq' : q.take (c :: u').length = c :: u' := by
            have : q = ((c :: u') ++ v).take q.length := by
              rw [List.prefix_iff_eq_take] at hpre; exact hpre
            rw [this, List.take_take, min_eq_left (le_of_lt hlen),
              List.take_left]
          rw [hq']
        · have : q = ((c :: u') ++ v).take q.length := by
            rw [List.prefix_iff_eq_take] at hpre; exact hpre
          rw [this, List.drop_take, List.drop_left]
          exact List.take_prefix _ _
    · rcases ih v hrest with h1 | h2 | ⟨j, hj0, hjq, hsu, hpv⟩
      · left; rw [occurs_cons, h1]; simp
      · right; left; exact h2
      · right; right
        exact ⟨j, hj0, hjq, hsu.trans (List.suffix_cons c u'), hpv⟩

/-- An occurrence of `q` inside a separator implies `canOverlap q sep`. -/
theorem canOverlap_of_occurs_sep {q sep : List Char} (hq : q ≠ [])
    (h : occurs q sep = true) : canOverlap q sep = true := by
  unfold occurs at h
  rw [List.any_eq_true] at h
  obtain ⟨t, ht, hpt⟩ := h
  rw [List.mem_tails] at ht
  have htd : t = sep.drop (sep.length - t.length) := List.suffix_iff_eq_drop.mp ht
  have htne : t ≠ [] := by
    intro hnil
    subst hnil
    cases q with
    | nil => exact hq rfl
    | cons a as => simp [List.isPrefixOf] at hpt
  apply Bool.or_eq_true_iff.mpr; left
  rw [List.any_eq_true]
  refine ⟨sep.length - t.length, List.mem_range.mpr ?_, ?_⟩
  · have h1 : 0 < t.length := List.length_pos.mpr htne
    have h2 : t.length ≤ sep.length := ht.length_le
    omega
  · rw [← htd]
    rw [List.isPrefixOf_iff_prefix] at hpt
    exact agree_of_prefix_append q t [] (by simpa using hpt)

/-- An occurrence of `q` that starts inside a block `sep ++ rest` (as a
prefix of it, with `q` nonempty) implies `canOverlap q sep`. -/
theorem canOverlap_of_prefix_sep {q sep rest : List Char} (hsep : sep ≠ [])
    (h : q <+: sep ++ rest) : canOverlap q sep = true := by
  apply Bool.or_eq_true_iff.mpr; left
  rw [List.any_eq_true]
  refine ⟨0, List.mem_range.mpr (List.length_pos.mpr hsep), ?_⟩
  simpa using agree_of_prefix_append q sep rest h

/-- An occurrence of `q` with a nonempty tail of `q` starting a block
`sep ++ rest` implies `canOverlap q sep`. -/
theorem canOverlap_of_prefix_drop {q sep rest : List Char} (j : ℕ)
    (hj0 : 0 < j) (hjq : j < q.length) (h : q.drop j <+: sep ++ rest) :
    canOverlap q sep = true := by
  apply Bool.or_eq_true_iff.mpr; right
  rw [List.any_eq_true]
  refine ⟨j, List.mem_range.mpr hjq, ?_⟩
  have : decide (0 < j) = true := decide_eq_true hj0
  rw [this, Bool.true_and]
  exact agree_of_prefix_append _ sep rest h

theorem part_infix_joinSep (sep : List Char) :
    ∀ (parts : List (List Char)), ∀ part ∈ parts, part <:+: joinSep sep parts := by
  intro parts
  induction parts with
  | nil => intro part h; simp at h
  | cons u us ih =>
    intro part hmem
    rcases List.mem_cons.mp hmem with h | h
    · subst h
      cases us with
      | nil => exact List.infix_refl _
      | cons v vs =>
        rw [joinSep_cons_of_ne_nil sep part (by simp)]
        exact (List.prefix_append part _).isInfix
    · cases us with
      | nil => simp at h
      | cons v vs =>
        rw [joinSep_cons_of_ne_nil sep u (by simp)]
        have := ih part h
        calc part <:+: joinSep sep (v :: vs) := this
          _ <:+: u ++ (sep ++ joinSep sep (v :: vs)) :=
            ((List.suffix_append sep _).trans (List.suffix_append u _)).isInfix

theorem eq_append_drop_of_isPrefixOf {pat s : List Char}
    (h : pat.isPrefixOf s = true) : s = pat ++ s.drop pat.length := by
  rw [List.isPrefixOf_iff_prefix] at h
  conv_lhs => rw [← List.take_append_drop pat.length s]
  rw [List.prefix_iff_eq_take] at h
  rw [← h]

/-- Structure theorem for `replaceAll`: the input splits as pattern-free
parts interleaved with the pattern, and the output is the same parts
interleaved with the replacement. -/
theorem replaceAll_decomp (pat repl : List Char) (hp : pat ≠ []) :
    ∀ (n : ℕ) (s : List Char), s.length ≤ n →
      ∃ parts : List (List Char), parts ≠ [] ∧
        s = joinSep pat parts ∧
        replaceAll pat repl s = joinSep repl parts ∧
        ∀ part ∈ parts, occurs pat part = false := by
  intro n
  induction n with
  | zero =>
    intro s hs
    have : s = [] := List.length_eq_zero.mp (Nat.le_zero.mp hs)
    subst this
    exact ⟨[[]], by simp, rfl, by simp [replaceAll, replaceAllAux, joinSep], by
      intro part hmem
      simp only [List.mem_singleton] at hmem
      subst hmem
      exact occurs_nil_of_ne_nil hp⟩
  | succ n ih =>
    intro s hs
    cases s with
    | nil =>
      exact ⟨[[]], by simp, rfl, by simp [replaceAll, replaceAllAux, joinSep], by
        intro part hmem
        simp only [List.mem_singleton] at hmem
        subst hmem
        exact occurs_nil_of_ne_nil hp⟩
    | cons c rest =>
      by_cases hmatch : pat.isPrefixOf (c :: rest) = true
      · have hlen : (rest.drop (pat.length - 1)).length ≤ n := by
          simp only [List.length_cons] at hs
          simp only [List.length_drop]
          omega
        obtain ⟨parts', hne', hs', hr', hocc'⟩ := ih (rest.drop (pat.length - 1)) hlen
        refine ⟨[] :: parts', by simp, ?_, ?_, ?_⟩
        · rw [joinSep_cons_of_ne_nil pat [] hne', List.nil_append, ← hs']
          have heq := eq_append_drop_of_isPrefixOf hmatch
          have hdrop : (c :: rest).drop pat.length = rest.drop (pat.length - 1) := by
            cases hplen : pat.length with
            | zero => exact absurd (List.length_eq_zero.mp hplen) hp
            | succ m => simp
          rw [hdrop] at heq
          exact heq
        · rw [replaceAll_cons, if_pos hmatch, hr',
            joinSep_cons_of_ne_nil repl [] hne', List.nil_append]
        · intro part hmem
          rcases List.mem_cons.mp hmem with h | h
          · subst h; exact occurs_nil_of_ne_nil hp
          · exact hocc' part h
      · have hlen : rest.length ≤ n := by
          simp only [List.length_cons] at hs; omega
        obtain ⟨parts', hne', hs', hr', hocc'⟩ := ih rest hlen
        obtain ⟨u, us, rfl⟩ := List.exists_cons_of_ne_nil hne'
        have hupfx : u <+: rest := by
          cases us with
          | nil => rw [hs']; exact List.prefix_refl _
          | cons v vs =>
            rw [hs', joinSep_cons_of_ne_nil pat u (by simp)]
            exact List.prefix_append u _
        refine ⟨(c :: u) :: us, by simp, ?_, ?_, ?_⟩
        · cases us with
          | nil =>
            simp only [joinSep] at hs' ⊢
            rw [hs']
          | cons v vs =>
            rw [joinSep_cons_of_ne_nil pat (c :: u) (by simp)]
            rw [joinSep_cons_of_ne_nil pat u (by simp)] at hs'
            rw [List.cons_append, ← hs']
        · rw [replaceAll_cons, if_neg hmatch]
          cases us with
          | nil =>
            simp only [joinSep] at hr' ⊢
            rw [hr']
          | cons v vs =>
            rw [joinSep_cons_of_ne_nil repl (c :: u) (by simp)]
            rw [joinSep_cons_of_ne_nil repl u (by simp)] at hr'
            rw [List.cons_append, ← hr']
        · intro part hmem
          rcases List.mem_cons.mp hmem with h | h
          · subst h
            rw [occurs_cons]
            apply Bool.or_eq_false_iff.mpr
            constructor
            · by_contra hcontra
              rw [Bool.not_eq_false] at hcontra
              rw [List.isPrefixOf_iff_prefix] at hcontra
              have : pat <+: c :: rest := by
                have : c :: u <+: c :: rest := by
                  obtain ⟨w, hw⟩ := hupfx
                  exact ⟨w, by rw [List.cons_append, hw]⟩
                exact hcontra.trans this
              rw [← List.isPrefixOf_iff_prefix] at this
              exact hmatch this
            · exact hocc' u (List.mem_cons_self u us)
          · exact hocc' part (List.mem_cons_of_mem u h)

/-- An occurrence in `joinSep sep parts` is inside a part, or can overlap
the separator. -/
theorem occurs_joinSep (q sep : List Char) (hq : q ≠ []) (hsep : sep ≠ []) :
    ∀ parts : List (List Char), occurs q (joinSep sep parts) = true →
      (∃ part ∈ parts, occurs q part = true) ∨ canOverlap q sep = true := by
  intro parts
  induction parts with
  | nil =>
    intro h
    rw [show joinSep sep [] = [] from rfl, occurs_nil_of_ne_nil hq] at h
    exact absurd h (by simp)
  | cons u us ih =>
    intro h
    cases us with
    | nil =>
      rw [show joinSep sep [u] = u from rfl] at h
      exact Or.inl ⟨u, by simp, h⟩
    | cons v vs =>
      rw [joinSep_cons_of_ne_nil sep u (by simp)] at h
      rcases occurs_append q hq u _ h with h1 | h2 | ⟨j, hj0, hjq, _, hpv⟩
      · exact Or.inl ⟨u, by simp, h1⟩
      · rcases occurs_append q hq sep _ h2 with h3 | h4 | ⟨j, hj0, hjq, _, hpv⟩
        · exact Or.inr (canOverlap_of_occurs_sep hq h3)
        · rcases ih h4 with ⟨part, hmem, hop⟩ | hov
          · exact Or.inl ⟨part, List.mem_cons_of_mem u hmem, hop⟩
          · exact Or.inr hov
        · -- q.take j ends inside sep, i.e. a tail of q starts the rest:
          -- q starts inside the separator block
          have : q.take j <:+ sep := by assumption
          apply Or.inr
          apply Bool.or_eq_true_iff.mpr; left
          rw [List.any_eq_true]
          have hlen : (q.take j).length ≤ sep.length := this.length_le
          have hjlen : (q.take j).length = j := by
            rw [List.length_take]
            exact min_eq_left (le_of_lt hjq)
          refine ⟨sep.length - j, List.mem_range.mpr (by omega), ?_⟩
          have hdropeq : sep.drop (sep.length - j) = q.take j := by
            have := List.suffix_iff_eq_drop.mp this
            rw [hjlen] at this
            exact this.symm
          rw [hdropeq]
          -- q agrees with its own prefix
          have : q.take j <+: q ++ [] := by simpa using List.take_prefix j q
          have hagree := agree_of_prefix_append (q.take j) q [] this
          -- agree is "symmetric" for prefix pairs: q.take j <+: q gives
          -- agree q (q.take j) as well
          clear * - hagree
          -- prove agree q (q.take j) from agree (q.take j) q
          induction q generalizing j with
          | nil => cases j <;> simp [agree]
          | cons a as ihq =>
            cases j with
            | zero => simp [agree]
            | succ m =>
              simp only [List.take_cons, agree, Bool.and_eq_true,
                decide_eq_true_eq] at hagree ⊢
              exact ⟨trivial, ihq m hagree.2⟩
      · exact Or.inr (canOverlap_of_prefix_drop j hj0 hjq hpv)

/-- An occurrence of `q` in the output of `replaceAll` either came from the
input or can overlap the replacement string. -/
theorem occurs_replaceAll_imp {pat repl q : List Char} (hp : pat ≠ [])
    (hq : q ≠ []) (hrepl : repl ≠ []) (s : List Char)
    (h : occurs q (replaceAll pat repl s) = true) :
    occurs q s = true ∨ canOverlap q repl = true := by
  obtain ⟨parts, _, hs, hr, _⟩ := replaceAll_decomp pat repl hp s.length s le_rfl
  rw [hr] at h
  rcases occurs_joinSep q repl hq hrepl parts h with ⟨part, hmem, hop⟩ | hov
  · left
    rw [hs]
    exact occurs_of_infix (part_infix_joinSep pat parts part hmem) hop
  · exact Or.inr hov

/-- After rewriting, the pattern itself no longer occurs, provided it
cannot overlap its own replacement. -/
theorem occurs_self_replaceAll {pat repl : List Char} (hp : pat ≠ [])
    (hrepl : repl ≠ []) (hself : canOverlap pat repl = false) (s : List Char) :
    occurs pat (replaceAll pat repl s) = false := by
  by_contra hcontra
  rw [Bool.not_eq_false] at hcontra
  obtain ⟨parts, _, _, hr, hocc⟩ := replaceAll_decomp pat repl hp s.length s le_rfl
  rw [hr] at hcontra
  rcases occurs_joinSep pat repl hp hrepl parts hcontra with ⟨part, hmem, hop⟩ | hov
  · rw [hocc part hmem] at hop; exact absurd hop (by simp)
  · rw [hself] at hov; exact absurd hov (by simp)

/-- If `q` cannot overlap the pattern, its occurrences survive rewriting. -/
theorem occurs_preserved_replaceAll {pat repl q : List Char} (hp : pat ≠ [])
    (hq : q ≠ []) (hco : canOverlap q pat = false) (s : List Char)
    (h : occurs q s = true) : occurs q (replaceAll pat repl s) = true := by
  obtain ⟨parts, _, hs, hr, _⟩ := replaceAll_decomp pat repl hp s.length s le_rfl
  rw [hs] at h
  rcases occurs_joinSep q pat hq hp parts h with ⟨part, hmem, hop⟩ | hov
  · rw [hr]
    exact occurs_of_infix (part_infix_joinSep repl parts part hmem) hop
  · rw [hco] at hov; exact absurd hov (by simp)

/-- If the pattern occurs, the replacement string occurs in the output. -/
theorem repl_occurs_of_occurs {pat repl : List Char} (hp : pat ≠ [])
    (s : List Char) (h : occurs pat s = true) :
    occurs repl (replaceAll pat repl s) = true := by
  obtain ⟨parts, hne, hs, hr, hocc⟩ := replaceAll_decomp pat repl hp s.length s le_rfl
  obtain ⟨u, us, rfl⟩ := List.exists_cons_of_ne_nil hne
  cases us with
  | nil =>
    rw [hs, show joinSep pat [u] = u from rfl] at h
    rw [hocc u (by simp)] at h
    exact absurd h (by simp)
  | cons v vs =>
    rw [hr, joinSep_cons_of_ne_nil repl u (by simp), occurs_characterization]
    exact ((List.prefix_append repl _).isInfix).trans (List.suffix_append u _).isInfix

/-- A concrete prefix inside which no match can start is copied verbatim. -/
theorem replaceAll_concrete_head (pat repl : List Char) :
    ∀ pre : List Char,
      (∀ i, i < pre.length → agree pat (pre.drop i) = false) →
      ∀ suf, replaceAll pat repl (pre ++ suf) = pre ++ replaceAll pat repl suf := by
  intro pre
  induction pre with
  | nil => intro _ suf; simp
  | cons c pre' ih =>
    intro h suf
    have h0 : pat.isPrefixOf (c :: (pre' ++ suf)) = false := by
      have := isPrefixOf_append_eq_false_of_agree pat (c :: pre') suf
        (by simpa using h 0 (by simp))
      simpa using this
    have hshift : ∀ i, i < pre'.length → agree pat (pre'.drop i) = false := by
      intro i hi
      have := h (i + 1) (by simpa using Nat.succ_lt_succ hi)
      simpa using this
    rw [List.cons_append, replaceAll_cons, if_neg (by simp [h0]), ih hshift suf]
    simp

/-! ## Claim theorems -/
/-- C6: for every session already holding 10 attachments, the
attachment-append route rejects the next upload with a 400
`"Maximum 10 attachments reached"` (the `InvalidInput` class), leaves the
session unchanged, and the attachment count stays exactly 10. -/
theorem attachment_cap_rejects_eleventh (newId now : String)
    (s : ConversationSession) (image : UploadFile) (name : String)
    (is_sketch : Bool) (h : s.attachments.length = 10) :
    addAttachmentRoute newId now (some s) image name is_sketch =
      (.httpError 400 "Maximum 10 attachments reached", some s) ∧
    s.attachments.length = 10 := by
  refine ⟨?_, h⟩
  simp [addAttachmentRoute, h]

/-- Witness for C6 at a concrete session with 10 attachments. -/
theorem attachment_cap_rejects_eleventh_witness :
    addAttachmentRoute "att-new" "2026-01-01" (some sampleSessionTen)
        ⟨"image/png", "cGF5", none⟩ "" false =
      (.httpError 400 "Maximum 10 attachments reached", some sampleSessionTen) ∧
    sampleSessionTen.attachments.length = 10 :=
  attachment_cap_rejects_eleventh "att-new" "2026-01-01" sampleSessionTen
    ⟨"image/png", "cGF5", none⟩ "" false (by decide)

/-- C9: when the input does not parse as a Python module (`ast.parse`
raises `SyntaxError`, i.e. the parse oracle yields `none`), the parameter
engine is total and non-raising: `extract_parameters` returns the empty
list, and `inject_parameters` returns the code unchanged for every value
map. -/
theorem parameter_engine_total_on_unparseable
    (parse : String → Option (List PyStmt)) (code : String)
    (h : parse code = none) :
    extract_parameters parse code = [] ∧
      ∀ vals, inject_parameters parse code vals = code := by
  constructor
  · unfold extract_parameters
    rw [h]
  · intro vals
    unfold inject_parameters
    rw [h]

/-- Witness for C9 at a concrete unparseable input. -/
theorem parameter_engine_total_on_unparseable_witness :
    extract_parameters (fun _ => none) "def broken(:" = [] ∧
      inject_parameters (fun _ => none) "def broken(:" [("length", Dec.ofInt 5)] =
        "def broken(:" := by
  obtain ⟨h1, h2⟩ :=
    parameter_engine_total_on_unparseable (fun _ => none) "def broken(:" rfl
  exact ⟨h1, h2 [("length", Dec.ofInt 5)]⟩

/-- C1 (code bug): for every text-only pipeline run (no attachments), the
Design stage's call
`generate_cad_code(…, validate=True, auto_correct=True)` passes keyword
arguments that `LLMService.generate_cad_code` does not accept, so the
call raises `TypeError` before reaching the provider, the handler
swallows it, `context.code` stays `None`, and `generate_with_agents`
returns the failure `"Design agent failed to generate code"` — it never
proceeds to Validation, contradicting the spec's text path. -/
theorem design_text_path_always_fails (o : PipelineOracles) (prompt : String)
    (existing_code : Option String)
    (context_parts : Option (List (String × String)))
    (printer_settings : Option PrinterSettings)
    (use_optimization use_review : Bool) :
    (generate_with_agents o prompt none none existing_code context_parts
        printer_settings use_optimization use_review).success = false ∧
    (generate_with_agents o prompt none none existing_code context_parts
        printer_settings use_optimization use_review).error =
      some "Design agent failed to generate code" ∧
    (generate_with_agents o prompt none none existing_code context_parts
        printer_settings use_optimization use_review).code = none := by
  have hbind : kwargsBind generateCadCodeParams designTextCallKwargs = false := rfl
  simp [generate_with_agents, firstDesign, initialContext, runDesignAgent,
    DesignContext.get_images_for_vision, hbind, codeFalsy, buildResponse]

/-- C2 counterexample: with the designer branch taking 2 time units and
the manufacturing branch 3 (physics not consulted), the Analyzing
fan-out's wall time is 5 — the sum of the branches — and not
`max 2 3 = 3` as concurrent dispatch would give. -/
theorem analyzing_fanout_not_concurrent_counterexample :
    (analyzeFanOut sampleConvOracles sampleReq).2 = 5 ∧
      (analyzeFanOut sampleConvOracles sampleReq).2 ≠ max 2 3 := by
  constructor
  · rfl
  · intro h
    simp [analyzeFanOut, sampleConvOracles, sampleReq, expectedLoadTruthy] at h

/-- C2 amended: the specialist calls of the Analyzing phase are awaited
one after another, so the fan-out's wall time is the *sum* of the
dispatched branches (designer, physics only when structural analysis is
triggered, manufacturing); each branch is independently fallible —
whatever the other branches did, a branch that returns parsed JSON
contributes its section to `analyses`. -/
theorem analyzing_fanout_sequential (o : ConvOracles) (req : DesignRequirements) :
    (analyzeFanOut o req).2 =
      (o.designerAgent req).dur +
        (if req.needs_structural_analysis || expectedLoadTruthy req then
          (o.physicsAgent req).dur else 0) +
        (o.manufacturingAgent req).dur ∧
    (∀ a, (o.designerAgent req).out = .ok a →
      ("designer", a) ∈ (analyzeFanOut o req).1) ∧
    (∀ a, (o.manufacturingAgent req).out = .ok a →
      ("manufacturing", a) ∈ (analyzeFanOut o req).1) := by
  refine ⟨?_, ?_, ?_⟩
  · by_cases hp : req.needs_structural_analysis || expectedLoadTruthy req <;>
      simp [analyzeFanOut, hp]
  · intro a ha
    by_cases hp : req.needs_structural_analysis || expectedLoadTruthy req <;>
      simp [analyzeFanOut, hp, ha]
  · intro a ha
    by_cases hp : req.needs_structural_analysis || expectedLoadTruthy req <;>
      simp [analyzeFanOut, hp, ha]

/-- Witness for C2's amended theorem at concrete oracles. -/
theorem analyzing_fanout_sequential_witness :
    (analyzeFanOut sampleConvOracles sampleReq).2 = 2 + 0 + 3 :=
  (analyzing_fanout_sequential sampleConvOracles sampleReq).1

/-- C5 counterexample: the requirements agent may report
`ready_to_design` while a section's confidence is far below 0.7 (here
`dimensions = 0.2`); the Gathering handler still transitions the session
to Analyzing, because only the `ready_to_design` flag is consulted. -/
theorem gathering_transition_ignores_confidence_counterexample :
    ConversationPhase.analyzing ∈
      (handleGatheringPhase sampleConvOracles "t0" sampleGatherSession).phaseTrace ∧
    dictLookup
      (handleGatheringPhase sampleConvOracles "t0" sampleGatherSession).session.requirements.confidence
      "dimensions" = some ⟨2, 1⟩ ∧
    Dec.blt ⟨2, 1⟩ ⟨7, 1⟩ = true := by
  refine ⟨?_, ?_, by decide⟩
  · decide
  · rfl

/-- Helper: `_start_design_phase` sets the phase to Finalizing or
Reviewing, never to Analyzing. -/
theorem startDesignPhaseResult_trace_cases (now : String)
    (s1 : ConversationSession) (result : PipelineResponse) :
    (startDesignPhaseResult now s1 result).phaseTrace = [ConversationPhase.finalizing] ∨
      (startDesignPhaseResult now s1 result).phaseTrace = [ConversationPhase.reviewing] := by
  unfold startDesignPhaseResult
  by_cases h : pipelineAccepted result
  · left; simp [h]
  · right; simp [h]

/-- Helper: same statement at the `_start_design_phase` entry point. -/
theorem startDesignPhase_trace_cases (o : ConvOracles) (now : String)
    (s : ConversationSession) :
    (startDesignPhase o now s).phaseTrace = [ConversationPhase.finalizing] ∨
      (startDesignPhase o now s).phaseTrace = [ConversationPhase.reviewing] := by
  unfold startDesignPhase
  exact startDesignPhaseResult_trace_cases now _ _

/-- Helper: the post-analysis branch never assigns the Analyzing phase. -/
theorem analyzingDecision_no_analyzing (o : ConvOracles) (now : String)
    (s2 : ConversationSession) (concerns : List String) :
    ConversationPhase.analyzing ∉ (analyzingDecision o now s2 concerns).phaseTrace := by
  unfold analyzingDecision
  by_cases h : concerns ≠ []
  · simp [h]
  · simp only [h, if_false]
    rcases startDesignPhase_trace_cases o now { s2 with phase := .designing } with h1 | h1 <;>
      simp [h1]

/-- Helper: `_transition_to_analyzing` never assigns the Analyzing phase
itself (it moves on to Reviewing or Designing). -/
theorem transitionToAnalyzing_no_analyzing (o : ConvOracles) (now : String)
    (s : ConversationSession) :
    ConversationPhase.analyzing ∉ (transitionToAnalyzing o now s).phaseTrace := by
  unfold transitionToAnalyzing
  exact analyzingDecision_no_analyzing o now _ _

/-- C5 amended: the Gathering→Analyzing transition fires exactly when the
requirements agent's parsed JSON reply has `ready_to_design = true`; the
per-section confidence scores are recorded but never thresholded
(`min_confidence_to_proceed` is never consulted), so the transition is
independent of whether every section's confidence reaches 0.7. -/
theorem gathering_transition_iff_ready (o : ConvOracles) (now : String)
    (s : ConversationSession) :
    (ConversationPhase.analyzing ∈ (handleGatheringPhase o now s).phaseTrace) ↔
      ∃ d, (o.requirementsAgent s).out = .ok d ∧ d.ready_to_design = true := by
  unfold handleGatheringPhase
  cases hout : (o.requirementsAgent s).out with
  | ok d =>
    by_cases hr : d.ready_to_design
    · simp only [hr, if_true]
      constructor
      · intro _; exact ⟨d, rfl, hr⟩
      · intro _; dsimp only; exact List.mem_cons_self _ _
    · simp only [hr, if_false]
      constructor
      · intro hmem
        cases hq : d.next_question <;> rw [hq] at hmem <;> dsimp only at hmem <;>
          simp at hmem
      · rintro ⟨d', hd', hrd⟩
        injection hd' with hdd
        subst hdd
        exact absurd hrd (by simpa using hr)
  | noJson =>
    constructor
    · intro hmem; simp at hmem
    · rintro ⟨d', hd', _⟩; cases hd'
  | exn m =>
    constructor
    · intro hmem; simp at hmem
    · rintro ⟨d', hd', _⟩; cases hd'

/-! ### Pipeline bookkeeping lemmas -/
/-- The Design stage never touches the iteration counters. -/
theorem runDesignAgent_counters (o : PipelineOracles) (ctx : DesignContext)
    (f : Option (List String)) :
    (runDesignAgent o ctx f).iterations = ctx.iterations ∧
      (runDesignAgent o ctx f).max_iterations = ctx.max_iterations := by
  unfold runDesignAgent
  cases h : ctx.get_images_for_vision <;>
    simp [h, show kwargsBind generateCadCodeParams designTextCallKwargs = false from rfl]

/-- `execStep` only rewrites the bounding box on the context. -/
theorem execStep_fields (ctx1 : DesignContext) (e0 w0 : List String)
    (er : ExecutionResult) :
    (execStep ctx1 e0 w0 er).1.iterations = ctx1.iterations ∧
      (execStep ctx1 e0 w0 er).1.max_iterations = ctx1.max_iterations := by
  unfold execStep
  by_cases hs : er.success <;> cases hb : er.bounding_box <;>
    simp [hs, hb] <;> split <;> simp

/-- If `execStep` reports no errors, the execution succeeded with a
bounding box, which is now stored on the context. -/
theorem execStep_no_errors_bbox (ctx1 : DesignContext) (e0 w0 : List String)
    (er : ExecutionResult) (h : (execStep ctx1 e0 w0 er).2.1 = []) :
    ((execStep ctx1 e0 w0 er).1.bounding_box).isSome = true := by
  unfold execStep at h ⊢
  by_cases hs : er.success <;> cases hb : er.bounding_box <;>
    simp [hs, hb] at h ⊢ <;> first
      | (split at h <;> simp_all)
      | simp_all

/-- `finishValidation` records `⟨errors.isEmpty, errors, …⟩` and passes the
context's bounding box and counters through. -/
theorem finishValidation_shape (o : PipelineOracles) (code1 : String)
    (st : DesignContext × List String × List String) :
    ∃ w, (finishValidation o code1 st).validation_result =
        some ⟨st.2.1.isEmpty, st.2.1, w⟩ ∧
      (finishValidation o code1 st).bounding_box = st.1.bounding_box ∧
      (finishValidation o code1 st).iterations = st.1.iterations ∧
      (finishValidation o code1 st).max_iterations = st.1.max_iterations := by
  obtain ⟨ctx2, errors1, warnings1⟩ := st
  unfold finishValidation
  cases h : (if errors1 = [] then o.validationReview code1 else none) with
  | none => exact ⟨warnings1, by simp [h]⟩
  | some pr => exact ⟨warnings1 ++ pr.1, by simp [h]⟩

/-- The Validation stage never touches the iteration counters. -/
theorem runValidationAgent_counters (o : PipelineOracles) (ctx : DesignContext) :
    (runValidationAgent o ctx).iterations = ctx.iterations ∧
      (runValidationAgent o ctx).max_iterations = ctx.max_iterations := by
  unfold runValidationAgent
  cases hc : ctx.code with
  | none => simp
  | some code0 =>
    obtain ⟨w, _, _, hit, hmax⟩ := finishValidation_shape o
      (adoptCorrected code0 (validate o.astError code0))
      (execStep { ctx with code := some (adoptCorrected code0 (validate o.astError code0)) }
        (validate o.astError code0).errors (validate o.astError code0).warnings
        (o.exec (adoptCorrected code0 (validate o.astError code0))))
    rw [hit, hmax]
    obtain ⟨h1, h2⟩ := execStep_fields
      { ctx with code := some (adoptCorrected code0 (validate o.astError code0)) }
      (validate o.astError code0).errors (validate o.astError code0).warnings
      (o.exec (adoptCorrected code0 (validate o.astError code0)))
    rw [h1, h2]
    exact ⟨rfl, rfl⟩

/-- The Optimization stage never touches the iteration counters and
leaves the recorded validation result unchanged. -/
theorem runOptimizationAgent_counters (o : PipelineOracles) (ctx : DesignContext) :
    (runOptimizationAgent o ctx).iterations = ctx.iterations ∧
      (runOptimizationAgent o ctx).validation_result = ctx.validation_result := by
  unfold runOptimizationAgent
  by_cases h1 : codeFalsy ctx || !validationValid ctx
  · simp [h1]
  · simp only [h1, if_false]
    cases h2 : o.optimizationLLM ctx with
    | error m => simp
    | ok content =>
      cases h3 : extractCode content with
      | none => simp [h3]
      | some ex =>
        by_cases h4 : ex = "" <;> by_cases h5 : (o.exec ex).success <;>
          simp [h3, h4, h5]

/-- The Review stage never touches counters, validation result or
bounding box. -/
theorem runReviewAgent_counters (o : PipelineOracles) (ctx : DesignContext) :
    (runReviewAgent o ctx).iterations = ctx.iterations ∧
      (runReviewAgent o ctx).validation_result = ctx.validation_result ∧
      (runReviewAgent o ctx).bounding_box = ctx.bounding_box := by
  unfold runReviewAgent
  cases h : o.reviewOutcome ctx <;> simp

/-- Shape of a Validation stage that reports validity: the recorded error
list (static errors plus execution errors) is empty and a bounding box
from the successful execution is stored. -/
theorem runValidationAgent_valid_shape (o : PipelineOracles) (ctx : DesignContext)
    (h : validationValid (runValidationAgent o ctx) = true) :
    (∃ v, (runValidationAgent o ctx).validation_result = some v ∧
      v.valid = true ∧ v.errors = []) ∧
    ((runValidationAgent o ctx).bounding_box).isSome = true := by
  unfold runValidationAgent at h ⊢
  cases hc : ctx.code with
  | none =>
    rw [hc] at h
    simp [validationValid] at h
  | some code0 =>
    rw [hc] at h
    obtain ⟨w, hvr, hbb, _, _⟩ := finishValidation_shape o
      (adoptCorrected code0 (validate o.astError code0))
      (execStep { ctx with code := some (adoptCorrected code0 (validate o.astError code0)) }
        (validate o.astError code0).errors (validate o.astError code0).warnings
        (o.exec (adoptCorrected code0 (validate o.astError code0))))
    simp only [validationValid, hvr] at h
    simp only [List.isEmpty_iff] at h
    refine ⟨⟨_, hvr, ?_, h⟩, ?_⟩
    · simp [h]
    · rw [hbb]
      exact execStep_no_errors_bbox _ _ _ _ h

/-- The Optimization stage wrapper: validation result and counters pass
through; a present bounding box stays present when the executor contract
(`success → bounding box present`) holds. -/
theorem optimizationStage_shape (o : PipelineOracles) (uo : Bool)
    (ctx : DesignContext)
    (hexec : ∀ c, (o.exec c).success = true → ((o.exec c).bounding_box).isSome = true) :
    (optimizationStage o uo ctx).validation_result = ctx.validation_result ∧
      (optimizationStage o uo ctx).iterations = ctx.iterations ∧
      ((ctx.bounding_box).isSome = true →
        ((optimizationStage o uo ctx).bounding_box).isSome = true) := by
  unfold optimizationStage
  by_cases hgate : (uo && validationValid ctx) = true
  · rw [if_pos hgate]
    obtain ⟨hit, hvr⟩ := runOptimizationAgent_counters o ctx
    refine ⟨hvr, hit, ?_⟩
    intro hbb
    unfold runOptimizationAgent
    by_cases h1 : codeFalsy ctx || !validationValid ctx
    · simp [h1, hbb]
    · simp only [h1, if_false]
      cases h2 : o.optimizationLLM ctx with
      | error m => simpa using hbb
      | ok content =>
        cases h3 : extractCode content with
        | none => simpa [h3] using hbb
        | some ex =>
          by_cases h4 : ex = ""
          · simpa [h3, h4] using hbb
          · by_cases h5 : (o.exec ex).success
            · simp [h3, h4, h5, hexec ex h5]
            · simpa [h3, h4, h5] using hbb
  · rw [if_neg hgate]
    exact ⟨rfl, rfl, fun hbb => hbb⟩

/-- The Review stage wrapper passes validation result, counters and
bounding box through. -/
theorem reviewStage_shape (o : PipelineOracles) (ur : Bool) (ctx : DesignContext) :
    (reviewStage o ur ctx).validation_result = ctx.validation_result ∧
      (reviewStage o ur ctx).iterations = ctx.iterations ∧
      (reviewStage o ur ctx).bounding_box = ctx.bounding_box := by
  unfold reviewStage
  by_cases hgate : (ur && imageTruthy ctx && validationValid ctx) = true
  · rw [if_pos hgate]
    obtain ⟨h1, h2, h3⟩ := runReviewAgent_counters o ctx
    exact ⟨h2, h1, h3⟩
  · rw [if_neg hgate]
    exact ⟨rfl, rfl, rfl⟩

/-- The retry loop preserves the valid-shape property (the final context
is the output of the last Validation run or the entry context). -/
theorem retryLoop_valid_shape (o : PipelineOracles) :
    ∀ (fuel : ℕ) (ctx : DesignContext),
      (validationValid ctx = true →
        (∃ v, ctx.validation_result = some v ∧ v.valid = true ∧ v.errors = []) ∧
        (ctx.bounding_box).isSome = true) →
      validationValid (retryLoop o fuel ctx) = true →
        (∃ v, (retryLoop o fuel ctx).validation_result = some v ∧
          v.valid = true ∧ v.errors = []) ∧
        ((retryLoop o fuel ctx).bounding_box).isSome = true := by
  intro fuel
  induction fuel with
  | zero => intro ctx hP h; exact hP h
  | succ n ih =>
    intro ctx hP h
    rw [retryLoop] at h ⊢
    by_cases hcond : (!validationValid ctx && decide (ctx.iterations < ctx.max_iterations)) = true
    · rw [if_pos hcond] at h ⊢
      exact ih _ (fun hv => runValidationAgent_valid_shape o _ hv) h
    · rw [if_neg hcond] at h ⊢
      exact hP h

/-- `validationValid` only reads the validation result. -/
theorem validationValid_congr {a b : DesignContext}
    (h : a.validation_result = b.validation_result) :
    validationValid a = validationValid b := by
  unfold validationValid
  rw [h]

/-- Success of `pipelineTail` implies a recorded valid result with an
empty error list and a present bounding box. -/
theorem pipelineTail_success_shape (o : PipelineOracles) (uo ur : Bool)
    (ctx2 : DesignContext)
    (hexec : ∀ c, (o.exec c).success = true → ((o.exec c).bounding_box).isSome = true)
    (hP : validationValid ctx2 = true →
      (∃ v, ctx2.validation_result = some v ∧ v.valid = true ∧ v.errors = []) ∧
      (ctx2.bounding_box).isSome = true)
    (h : (pipelineTail o uo ur ctx2).success = true) :
    ∃ v, (pipelineTail o uo ur ctx2).validation = some v ∧ v.valid = true ∧
      v.errors = [] ∧ ((pipelineTail o uo ur ctx2).bounding_box).isSome = true := by
  unfold pipelineTail at h ⊢
  simp only [buildResponse] at h ⊢
  -- h : validationValid ctx5 = true
  obtain ⟨hvr5, _, hbb5⟩ := reviewStage_shape o ur
    (optimizationStage o uo (retryLoop o (ctx2.max_iterations + 1) ctx2))
  obtain ⟨hvr4, _, hbb4⟩ := optimizationStage_shape o uo
    (retryLoop o (ctx2.max_iterations + 1) ctx2) hexec
  have hv4 : validationValid
      (optimizationStage o uo (retryLoop o (ctx2.max_iterations + 1) ctx2)) = true := by
    rw [← validationValid_congr hvr5]
    exact h
  have hv3 : validationValid (retryLoop o (ctx2.max_iterations + 1) ctx2) = true := by
    rw [← validationValid_congr hvr4]
    exact hv4
  obtain ⟨⟨v, hv, hvalid, herrs⟩, hbb3⟩ :=
    retryLoop_valid_shape o (ctx2.max_iterations + 1) ctx2 hP hv3
  refine ⟨v, ?_, hvalid, herrs, ?_⟩
  · rw [hvr5, hvr4, hv]
  · rw [hbb5]
    exact hbb4 hbb3

/-- A retry round increments the iteration counter by exactly one and
leaves the bound unchanged. -/
theorem retryRound_iterations (o : PipelineOracles) (ctx : DesignContext) :
    (retryRound o ctx).iterations = ctx.iterations + 1 ∧
      (retryRound o ctx).max_iterations = ctx.max_iterations := by
  unfold retryRound
  obtain ⟨h1, h2⟩ := runValidationAgent_counters o
    (runDesignAgent o { ctx with iterations := ctx.iterations + 1 }
      (some (validationErrors { ctx with iterations := ctx.iterations + 1 })))
  rw [h1, h2]
  obtain ⟨h3, h4⟩ := runDesignAgent_counters o
    { ctx with iterations := ctx.iterations + 1 }
    (some (validationErrors { ctx with iterations := ctx.iterations + 1 }))
  rw [h3, h4]
  exact ⟨rfl, rfl⟩

/-- The Optimization stage wrapper never touches the iteration counter or
the recorded validation result. -/
theorem optimizationStage_iterations (o : PipelineOracles) (uo : Bool)
    (ctx : DesignContext) :
    (optimizationStage o uo ctx).iterations = ctx.iterations ∧
      (optimizationStage o uo ctx).validation_result = ctx.validation_result := by
  unfold optimizationStage
  by_cases hgate : (uo && validationValid ctx) = true
  · rw [if_pos hgate]
    exact runOptimizationAgent_counters o ctx
  · rw [if_neg hgate]
    exact ⟨rfl, rfl⟩

/-- Entering the pipeline, the first Validation context carries the
initial counters: `iterations = 0`, `max_iterations = 3`. -/
theorem firstValidation_counters (o : PipelineOracles) (prompt : String)
    (image_data : Option ImageData) (image_mime_type : Option String)
    (existing_code : Option String)
    (context_parts : Option (List (String × String)))
    (printer_settings : Option PrinterSettings) :
    (firstValidation o prompt image_data image_mime_type existing_code
        context_parts printer_settings).iterations = 0 ∧
      (firstValidation o prompt image_data image_mime_type existing_code
        context_parts printer_settings).max_iterations = 3 := by
  unfold firstValidation firstDesign
  obtain ⟨h1, h2⟩ := runValidationAgent_counters o
    (runDesignAgent o (initialContext prompt image_data image_mime_type
      existing_code context_parts printer_settings) none)
  rw [h1, h2]
  obtain ⟨h3, h4⟩ := runDesignAgent_counters o
    (initialContext prompt image_data image_mime_type existing_code
      context_parts printer_settings) none
  rw [h3, h4]
  exact ⟨rfl, rfl⟩

/-- If the loop is entered (entry context invalid, counter below the
bound) and the first retry round validates, the loop stops after that
one round, whatever fuel remains. -/
theorem retryLoop_exit_after_round (o : PipelineOracles) (fuel : ℕ)
    (ctx : DesignContext)
    (h2 : validationValid ctx = false)
    (hit : ctx.iterations < ctx.max_iterations)
    (h3 : validationValid (retryRound o ctx) = true) :
    retryLoop o (fuel + 1) ctx = retryRound o ctx := by
  rw [retryLoop, if_pos (by simp [h2, hit])]
  cases fuel with
  | zero => rfl
  | succ m => rw [retryLoop, if_neg (by simp [h3])]

/-- C4 counterexample: a concrete run in which the first Validation
fails, the retried Design fixes the code and the second Validation
passes — exactly the spec's scenario — yet the response reports
`iterations = 1`, not the promised 2. -/
theorem retry_reports_one_iteration_counterexample :
    c4Run.success = true ∧ c4Run.iterations = 1 ∧ c4Run.iterations ≠ 2 :=
  ⟨by decide, by decide, by decide⟩

/-- C4 (amended): in every pipeline run where the first Design produced
code, the first Validation reports an error, and the single retried
round validates, the returned result has `iterations = 1` — the counter
counts retry rounds, not Design runs, so the spec scenario reports 1
rather than 2. -/
theorem retry_pass_reports_iterations_one (o : PipelineOracles) (prompt : String)
    (image_data : Option ImageData) (image_mime_type : Option String)
    (existing_code : Option String)
    (context_parts : Option (List (String × String)))
    (printer_settings : Option PrinterSettings) (uo ur : Bool)
    (h1 : codeFalsy (firstDesign o prompt image_data image_mime_type
        existing_code context_parts printer_settings) = false)
    (h2 : validationValid (firstValidation o prompt image_data image_mime_type
        existing_code context_parts printer_settings) = false)
    (h3 : validationValid (retryRound o (firstValidation o prompt image_data
        image_mime_type existing_code context_parts printer_settings)) = true) :
    (generate_with_agents o prompt image_data image_mime_type existing_code
        context_parts printer_settings uo ur).iterations = 1 := by
  unfold generate_with_agents
  rw [if_neg (by simp [h1])]
  unfold pipelineTail
  simp only [buildResponse]
  obtain ⟨hit0, hmax0⟩ := firstValidation_counters o prompt image_data
    image_mime_type existing_code context_parts printer_settings
  have hloop : retryLoop o
      ((firstValidation o prompt image_data image_mime_type existing_code
        context_parts printer_settings).max_iterations + 1)
      (firstValidation o prompt image_data image_mime_type existing_code
        context_parts printer_settings) =
      retryRound o (firstValidation o prompt image_data image_mime_type
        existing_code context_parts printer_settings) := by
    rw [hmax0]
    exact retryLoop_exit_after_round o 3 _ h2 (by rw [hit0, hmax0]; decide) h3
  rw [hloop]
  obtain ⟨_, hit5, _⟩ := reviewStage_shape o ur
    (optimizationStage o uo (retryRound o (firstValidation o prompt image_data
      image_mime_type existing_code context_parts printer_settings)))
  rw [hit5]
  obtain ⟨hit4, _⟩ := optimizationStage_iterations o uo
    (retryRound o (firstValidation o prompt image_data image_mime_type
      existing_code context_parts printer_settings))
  rw [hit4]
  obtain ⟨hr1, _⟩ := retryRound_iterations o
    (firstValidation o prompt image_data image_mime_type existing_code
      context_parts printer_settings)
  rw [hr1, hit0]

/-- C4 witness: the hypotheses of the amended theorem hold at the
concrete retry run, and the theorem applied there yields
`iterations = 1`. -/
theorem retry_pass_reports_iterations_one_witness :
    codeFalsy (firstDesign c4Oracles "un cylindre"
        (some (.multi [("imgdata", "image/png")])) none none none none) = false ∧
    validationValid (firstValidation c4Oracles "un cylindre"
        (some (.multi [("imgdata", "image/png")])) none none none none) = false ∧
    validationValid (retryRound c4Oracles (firstValidation c4Oracles "un cylindre"
        (some (.multi [("imgdata", "image/png")])) none none none none)) = true ∧
    (generate_with_agents c4Oracles "un cylindre"
        (some (.multi [("imgdata", "image/png")])) none none none none
        false false).iterations = 1 :=
  ⟨by decide, by decide, by decide,
    retry_pass_reports_iterations_one c4Oracles "un cylindre"
      (some (.multi [("imgdata", "image/png")])) none none none none false false
      (by decide) (by decide) (by decide)⟩

/-- C3 counterexample: a concrete run that returns `success = true` and a
bounding box whose x-extent (300) exceeds the default 220 build volume —
the build-volume check only emits a warning, so success does not imply
the part fits the printer. -/
theorem pipeline_success_oversized_counterexample :
    c3Run.success = true ∧
    c3Run.bounding_box = some ⟨300, 10, 10⟩ ∧
    Dec.ble (300 : Dec) defaultPrinterSettings.build_volume.x = false :=
  ⟨by decide, by decide, by decide⟩

/-- C3 (amended): for every pipeline run returning `success = true`,
under the executor contract that a successful execution reports a
bounding box, the response carries a validation summary that is valid
with zero errors and a present bounding box.  The build-volume bound the
spec also claims does not hold — see the counterexample. -/
theorem pipeline_success_validated (o : PipelineOracles) (prompt : String)
    (image_data : Option ImageData) (image_mime_type : Option String)
    (existing_code : Option String)
    (context_parts : Option (List (String × String)))
    (printer_settings : Option PrinterSettings) (uo ur : Bool)
    (hexec : ∀ c, (o.exec c).success = true →
      ((o.exec c).bounding_box).isSome = true)
    (h : (generate_with_agents o prompt image_data image_mime_type existing_code
        context_parts printer_settings uo ur).success = true) :
    ∃ v, (generate_with_agents o prompt image_data image_mime_type existing_code
        context_parts printer_settings uo ur).validation = some v ∧
      v.valid = true ∧ v.errors = [] ∧
      ((generate_with_agents o prompt image_data image_mime_type existing_code
        context_parts printer_settings uo ur).bounding_box).isSome = true := by
  unfold generate_with_agents at h ⊢
  by_cases hcf : codeFalsy (firstDesign o prompt image_data image_mime_type
      existing_code context_parts printer_settings) = true
  · rw [if_pos hcf] at h
    simp [buildResponse] at h
  · rw [if_neg hcf] at h ⊢
    exact pipelineTail_success_shape o uo ur
      (firstValidation o prompt image_data image_mime_type existing_code
        context_parts printer_settings) hexec
      (fun hv => runValidationAgent_valid_shape o
        (firstDesign o prompt image_data image_mime_type existing_code
          context_parts printer_settings) hv) h

/-- C3 witness: the amended theorem applied to the concrete oversized
run, whose executor always reports a bounding box on success. -/
theorem pipeline_success_validated_witness :
    ∃ v, (generate_with_agents c3Oracles "une très grande pièce"
        (some (.multi [("imgdata", "image/png")])) none none none none
        false false).validation = some v ∧
      v.valid = true ∧ v.errors = [] ∧
      ((generate_with_agents c3Oracles "une très grande pièce"
        (some (.multi [("imgdata", "image/png")])) none none none none
        false false).bounding_box).isSome = true :=
  pipeline_success_validated c3Oracles "une très grande pièce"
    (some (.multi [("imgdata", "image/png")])) none none none none false false
    (fun _ _ => rfl) (by decide)

/-! ### Parameter-engine round-trip machinery -/
/-- An identifier character is never regex whitespace. -/
theorem isPyWs_eq_false_of_isIdentChar (c : Char) (h : isIdentChar c = true) :
    isPyWs c = false := by
  by_contra hws
  rw [Bool.not_eq_false] at hws
  unfold isPyWs at hws
  simp only [Bool.or_eq_true, decide_eq_true_eq] at hws
  rcases hws with ((((h1 | h1) | h1) | h1) | h1) | h1 <;> subst h1 <;>
    exact absurd h (by decide)

/-- A numeral-run character is never regex whitespace. -/
theorem isPyWs_eq_false_of_isNumRunChar (c : Char) (h : isNumRunChar c = true) :
    isPyWs c = false := by
  by_contra hws
  rw [Bool.not_eq_false] at hws
  unfold isPyWs at hws
  simp only [Bool.or_eq_true, decide_eq_true_eq] at hws
  rcases hws with ((((h1 | h1) | h1) | h1) | h1) | h1 <;> subst h1 <;>
    exact absurd h (by decide)

/-- A numeral-run character is never a space or tab. -/
theorem isSpaceTab_eq_false_of_isNumRunChar (c : Char) (h : isNumRunChar c = true) :
    isSpaceTab c = false := by
  by_contra hws
  rw [Bool.not_eq_false] at hws
  unfold isSpaceTab at hws
  simp only [Bool.or_eq_true, decide_eq_true_eq] at hws
  rcases hws with h1 | h1 <;> subst h1 <;> exact absurd h (by decide)

/-- A word start is an identifier character. -/
theorem isIdentChar_of_isIdentStart (c : Char) (h : isIdentStart c = true) :
    isIdentChar c = true := by
  unfold isIdentStart at h
  unfold isIdentChar
  rcases Bool.or_eq_true _ _ |>.mp h with h1 | h1 <;> simp [h1]

/-- `takeWhile` stops exactly at the first failing element. -/
theorem takeWhile_append_of_all (p : Char → Bool) (a : List Char) (b : Char)
    (t : List Char) (ha : a.all p = true) (hb : p b = false) :
    (a ++ b :: t).takeWhile p = a := by
  induction a with
  | nil => simp [List.takeWhile_cons, hb]
  | cons c cs ih =>
    simp only [List.all_cons, Bool.and_eq_true] at ha
    simp [List.takeWhile_cons, ha.1, ih ha.2]

/-- `takeWhile` keeps a list all of whose elements satisfy the predicate. -/
theorem takeWhile_of_all (p : Char → Bool) (a : List Char)
    (ha : a.all p = true) : a.takeWhile p = a := by
  induction a with
  | nil => rfl
  | cons c cs ih =>
    simp only [List.all_cons, Bool.and_eq_true] at ha
    simp [List.takeWhile_cons, ha.1, ih ha.2]

/-- `split('\n')` of a newline-free string is that single line. -/
theorem splitLines_no_newline (l : List Char) (h : '\n' ∉ l) :
    splitLines l = [l] := by
  induction l with
  | nil => rfl
  | cons c cs ih =>
    rw [splitLines, if_neg (by intro hc; exact h (hc ▸ List.mem_cons_self c cs)),
      ih (fun hm => h (List.mem_cons_of_mem c hm))]

/-- `split('\n')` peels one newline-free line off the front. -/
theorem splitLines_append_newline (l rest : List Char) (h : '\n' ∉ l) :
    splitLines (l ++ '\n' :: rest) = l :: splitLines rest := by
  induction l with
  | nil => simp [splitLines]
  | cons c cs ih =>
    rw [List.cons_append, splitLines,
      if_neg (by intro hc; exact h (hc ▸ List.mem_cons_self c cs)),
      ih (fun hm => h (List.mem_cons_of_mem c hm))]

/-- `split('\n')` inverts joining newline-free lines with newlines. -/
theorem splitLines_joinSep (ls : List (List Char)) (h : ∀ l ∈ ls, '\n' ∉ l)
    (hne : ls ≠ []) : splitLines (joinSep ['\n'] ls) = ls := by
  induction ls with
  | nil => exact absurd rfl hne
  | cons l ls2 ih =>
    cases ls2 with
    | nil => exact splitLines_no_newline l (h l (by simp))
    | cons l2 ls3 =>
      rw [show joinSep ['\n'] (l :: l2 :: ls3) =
          l ++ '\n' :: joinSep ['\n'] (l2 :: ls3) from rfl]
      rw [splitLines_append_newline l _ (h l (by simp))]
      rw [ih (fun x hx => h x (by simp [hx])) (by simp)]

/-- A leading minus sign never parses as an unsigned numeral. -/
theorem parseUnsignedNum_neg (t : List Char) : parseUnsignedNum ('-' :: t) = none :=
  rfl

/-- The spec-modelled parser reads a canonically rendered parameter line
as a single-`Name` assignment of a numeric constant. -/
theorem parseLineStmt_lineOf (n : ℕ) (p : String × Dec)
    (hne : p.1.data ≠ [])
    (hall : p.1.data.all isIdentChar = true)
    (hstart : isIdentStart p.1.data.headI = true)
    (hkw1 : p.1 ≠ "import") (hkw2 : p.1 ≠ "from")
    (hv1 : (valueStrOf p.2).data.all isNumRunChar = true)
    (hv2 : parseUnsignedNum (valueStrOf p.2).data = some (p.2, [])) :
    parseLineStmt n (lineOf p) = .stmt (.assign [.name p.1] (.numConst p.2) n) := by
  obtain ⟨c, nrest, hdata⟩ : ∃ c nrest, p.1.data = c :: nrest := by
    cases hd : p.1.data with
    | nil => exact absurd hd hne
    | cons a b => exact ⟨a, b, rfl⟩
  have hcstart : isIdentStart c = true := by
    have h := hstart; rw [hdata] at h; simpa using h
  have hcid : isIdentChar c = true := isIdentChar_of_isIdentStart c hcstart
  have hallc : (c :: nrest).all isIdentChar = true := by
    have h := hall; rw [hdata] at h; exact h
  have hvsne : (valueStrOf p.2).data ≠ [] := by
    intro h0
    rw [h0, show parseUnsignedNum ([] : List Char) = none from rfl] at hv2
    cases hv2
  obtain ⟨v0, vrest, hvs⟩ :
      ∃ v0 vrest, (valueStrOf p.2).data = v0 :: vrest := by
    cases hd : (valueStrOf p.2).data with
    | nil => exact absurd hd hvsne
    | cons a b => exact ⟨a, b, rfl⟩
  have hv0 : isNumRunChar v0 = true := by
    have h := hv1; rw [hvs, List.all_cons, Bool.and_eq_true] at h; exact h.1
  have hv0ne : v0 ≠ '-' := by
    intro h0
    rw [hvs, h0, parseUnsignedNum_neg] at hv2
    cases hv2
  have hline : lineOf p = c :: (nrest ++ ' ' :: '=' :: ' ' :: (valueStrOf p.2).data) := by
    unfold lineOf; rw [hdata, List.cons_append]
  have htw : (c :: (nrest ++ ' ' :: '=' :: ' ' :: (valueStrOf p.2).data)).takeWhile
      isIdentChar = c :: nrest := by
    rw [← List.cons_append]
    exact takeWhile_append_of_all isIdentChar (c :: nrest) ' ' _ hallc (by decide)
  have himp : "import ".data.isPrefixOf
      (c :: (nrest ++ ' ' :: '=' :: ' ' :: (valueStrOf p.2).data)) = false := by
    by_contra hx
    rw [Bool.not_eq_false] at hx
    obtain ⟨tail, htail⟩ := List.isPrefixOf_iff_prefix.mp hx
    have h2 : ("import ".data ++ tail).takeWhile isIdentChar = "import".data := by
      rw [show "import ".data ++ tail = "import".data ++ ' ' :: tail from rfl]
      exact takeWhile_append_of_all isIdentChar "import".data ' ' tail
        (by decide) (by decide)
    rw [htail, htw] at h2
    exact hkw1 (String.ext (by rw [hdata, h2]))
  have hfrom : "from ".data.isPrefixOf
      (c :: (nrest ++ ' ' :: '=' :: ' ' :: (valueStrOf p.2).data)) = false := by
    by_contra hx
    rw [Bool.not_eq_false] at hx
    obtain ⟨tail, htail⟩ := List.isPrefixOf_iff_prefix.mp hx
    have h2 : ("from ".data ++ tail).takeWhile isIdentChar = "from".data := by
      rw [show "from ".data ++ tail = "from".data ++ ' ' :: tail from rfl]
      exact takeWhile_append_of_all isIdentChar "from".data ' ' tail
        (by decide) (by decide)
    rw [htail, htw] at h2
    exact hkw2 (String.ext (by rw [hdata, h2]))
  have hdrop : (c :: (nrest ++ ' ' :: '=' :: ' ' :: (valueStrOf p.2).data)).drop
      (c :: nrest).length = ' ' :: '=' :: ' ' :: (valueStrOf p.2).data := by
    rw [← List.cons_append, List.drop_left]
  have hdw : (' ' :: '=' :: ' ' :: (valueStrOf p.2).data).dropWhile isSpaceTab =
      '=' :: ' ' :: (valueStrOf p.2).data := by
    rw [List.dropWhile_cons, if_pos (by decide), List.dropWhile_cons,
      if_neg (by decide)]
  have hdw3 : (' ' :: (valueStrOf p.2).data).dropWhile isSpaceTab =
      (valueStrOf p.2).data := by
    rw [List.dropWhile_cons, if_pos (by decide), hvs, List.dropWhile_cons,
      if_neg (by simp [isSpaceTab_eq_false_of_isNumRunChar v0 hv0]), ← hvs]
  rw [hline, parseLineStmt]
  rw [if_neg (show ¬ c = '#' from fun h => absurd (h ▸ hcstart) (by decide))]
  rw [if_neg (by simp [isPyWs_eq_false_of_isIdentChar c hcid])]
  rw [if_neg (by simp [himp])]
  rw [if_neg (by simp [hfrom])]
  rw [if_neg (by
    simp only [Bool.or_eq_true, decide_eq_true_eq]
    rintro (h | h) <;> exact absurd (h ▸ hcstart) (by decide))]
  rw [if_pos hcstart]
  simp only [htw, hdrop, hdw]
  rw [if_pos (show ('=' :: ' ' :: (valueStrOf p.2).data).head? = some '=' from rfl)]
  rw [if_neg (show ¬ (('=' :: ' ' :: (valueStrOf p.2).data).tail.head? = some '=')
    from by simp)]
  simp only [List.tail_cons, hdw3]
  rw [if_neg (show ¬ ((valueStrOf p.2).data.head? = some '-') from by
    rw [hvs]; simp [hv0ne])]
  rw [hv2, ← hdata]
  rfl

/-- A canonically rendered line contains no newline. -/
theorem newline_not_mem_lineOf (p : String × Dec)
    (hall : p.1.data.all isIdentChar = true)
    (hv1 : (valueStrOf p.2).data.all isNumRunChar = true) :
    '\n' ∉ lineOf p := by
  unfold lineOf
  intro hmem
  rcases List.mem_append.mp hmem with h | h
  · exact absurd (List.all_eq_true.mp hall '\n' h) (by decide)
  · rcases List.mem_cons.mp h with h | h
    · exact absurd h (by decide)
    rcases List.mem_cons.mp h with h | h
    · exact absurd h (by decide)
    rcases List.mem_cons.mp h with h | h
    · exact absurd h (by decide)
    · exact absurd (List.all_eq_true.mp hv1 '\n' h) (by decide)

/-- The spec-modelled parser reads a rendered block as the expected
assignment statements. -/
theorem parseLinesFrom_render (ps : List (String × Dec)) (n : ℕ)
    (hid : ∀ p ∈ ps, p.1.data ≠ [] ∧ p.1.data.all isIdentChar = true ∧
      isIdentStart p.1.data.headI = true)
    (hkw : ∀ p ∈ ps, p.1 ≠ "import" ∧ p.1 ≠ "from")
    (hv : ∀ p ∈ ps, (valueStrOf p.2).data.all isNumRunChar = true ∧
      parseUnsignedNum (valueStrOf p.2).data = some (p.2, [])) :
    parseLinesFrom n (ps.map lineOf) = some (stmtsOf n ps) := by
  induction ps generalizing n with
  | nil => rfl
  | cons p rest ih =>
    have hmem : p ∈ p :: rest := List.mem_cons_self p rest
    rw [List.map_cons, parseLinesFrom,
      parseLineStmt_lineOf n p (hid p hmem).1 (hid p hmem).2.1 (hid p hmem).2.2
        (hkw p hmem).1 (hkw p hmem).2 (hv p hmem).1 (hv p hmem).2,
      ih (n + 1) (fun q hq => hid q (List.mem_cons_of_mem p hq))
        (fun q hq => hkw q (List.mem_cons_of_mem p hq))
        (fun q hq => hv q (List.mem_cons_of_mem p hq))]
    rfl

/-- `ast.parse` of a rendered block. -/
theorem pyParse_render (ps : List (String × Dec)) (hne : ps ≠ [])
    (hid : ∀ p ∈ ps, p.1.data ≠ [] ∧ p.1.data.all isIdentChar = true ∧
      isIdentStart p.1.data.headI = true)
    (hkw : ∀ p ∈ ps, p.1 ≠ "import" ∧ p.1 ≠ "from")
    (hv : ∀ p ∈ ps, (valueStrOf p.2).data.all isNumRunChar = true ∧
      parseUnsignedNum (valueStrOf p.2).data = some (p.2, [])) :
    pyParse (renderParams ps) = some (stmtsOf 1 ps) := by
  unfold pyParse
  rw [show (renderParams ps).data = joinSep ['\n'] (ps.map lineOf) from rfl]
  rw [splitLines_joinSep (ps.map lineOf)
    (by
      intro l hl
      obtain ⟨q, hq, hql⟩ := List.mem_map.mp hl
      rw [← hql]
      exact newline_not_mem_lineOf q (hid q hq).2.1 (hv q hq).1)
    (by simp [hne])]
  exact parseLinesFrom_render ps 1 hid hkw hv

/-- Extraction over the statements of a rendered block. -/
theorem extractFromStmts_stmtsOf (ps : List (String × Dec)) (n : ℕ)
    (hdim : ∀ p ∈ ps, isDimensionParameter p.1 = true) :
    extractFromStmts (stmtsOf n ps) = paramsOf n ps := by
  induction ps generalizing n with
  | nil => rfl
  | cons p rest ih =>
    rw [stmtsOf, extractFromStmts]
    rw [if_pos (hdim p (List.mem_cons_self p rest))]
    rw [ih (n + 1) (fun q hq => hdim q (List.mem_cons_of_mem p hq))]
    rfl

/-- `find?` skips over a block in which it fails. -/
theorem find?_none_append (p : String × Dec → Bool) (l1 l2 : List (String × Dec))
    (h : l1.find? p = none) : (l1 ++ l2).find? p = l2.find? p := by
  induction l1 with
  | nil => rfl
  | cons a t ih =>
    cases hpa : p a with
    | true => rw [List.find?_cons_of_pos _ hpa] at h; cases h
    | false =>
      rw [List.cons_append, List.find?_cons_of_neg _ (by simp [hpa])]
      rw [List.find?_cons_of_neg _ (by simp [hpa])] at h
      exact ih h

/-- With pairwise fresh keys every Python dict insertion appends, so the
built dict is the association list of the records. -/
theorem foldl_dictInsert_fresh (qs : List Parameter) :
    ∀ (m : List (String × Dec)),
      (∀ q ∈ qs, (m.find? fun p => p.1 = q.name) = none) →
      (qs.map Parameter.name).Nodup →
      qs.foldl (fun m p => dictInsert m p.name p.value) m =
        m ++ qs.map fun q => (q.name, q.value) := by
  induction qs with
  | nil => intro m _ _; simp
  | cons q rest ih =>
    intro m hfresh hnodup
    rw [List.foldl_cons]
    have hq : dictInsert m q.name q.value = m ++ [(q.name, q.value)] := by
      unfold dictInsert
      rw [hfresh q (List.mem_cons_self q rest)]
      rfl
    have hfresh2 : ∀ r ∈ rest,
        ((m ++ [(q.name, q.value)]).find? fun p => p.1 = r.name) = none := by
      intro r hr
      rw [find?_none_append _ _ _ (hfresh r (List.mem_cons_of_mem q hr))]
      have hne : ¬ (q.name = r.name) := by
        intro he
        rw [List.map_cons, List.nodup_cons] at hnodup
        exact hnodup.1 (he ▸ List.mem_map_of_mem _ hr)
      rw [List.find?_cons_of_neg _ (by simpa using hne)]
      rfl
    rw [hq, ih (m ++ [(q.name, q.value)]) hfresh2
      (by rw [List.map_cons, List.nodup_cons] at hnodup; exact hnodup.2)]
    simp

/-- The map built by `inject_parameters` from a duplicate-free extraction
is the plain association list. -/
theorem mapFromExtract_nodup (qs : List Parameter)
    (hnodup : (qs.map Parameter.name).Nodup) :
    mapFromExtract qs = qs.map fun q => (q.name, q.value) := by
  unfold mapFromExtract
  simpa using foldl_dictInsert_fresh qs [] (fun q _ => rfl) hnodup

/-- Association-list lookup of a recorded parameter. -/
theorem dictLookup_pairs (qs : List Parameter) (q : Parameter)
    (hnodup : (qs.map Parameter.name).Nodup) (hq : q ∈ qs) :
    dictLookup (qs.map fun r => (r.name, r.value)) q.name = some q.value := by
  induction qs with
  | nil => cases hq
  | cons r rest ih =>
    rcases List.mem_cons.mp hq with h | h
    · subst h
      unfold dictLookup
      rw [List.map_cons, List.find?_cons_of_pos _ (by simp)]
      rfl
    · have hne : ¬ (r.name = q.name) := by
        intro he
        rw [List.map_cons, List.nodup_cons] at hnodup
        exact hnodup.1 (he ▸ List.mem_map_of_mem _ h)
      rw [List.map_cons]
      unfold dictLookup
      rw [List.find?_cons_of_neg _ (by simpa using hne)]
      exact ih (by rw [List.map_cons, List.nodup_cons] at hnodup; exact hnodup.2) h

/-- A parsed canonical numeral is nonempty. -/
theorem valueStr_ne_nil_of_parse (vs : List Char) (v : Dec)
    (h : parseUnsignedNum vs = some (v, [])) : vs ≠ [] := by
  intro h0
  rw [h0, show parseUnsignedNum ([] : List Char) = none from rfl] at h
  cases h

/-- The anchored substitution regex leaves a canonically rendered line
unchanged when fed that line\x27s own name and value. -/
theorem subAssignLine_lineOf (p : String × Dec)
    (hne : p.1.data ≠ [])
    (hall : p.1.data.all isIdentChar = true)
    (hv1 : (valueStrOf p.2).data.all isNumRunChar = true)
    (hvne : (valueStrOf p.2).data ≠ []) :
    subAssignLine p.1.data (valueStrOf p.2).data (lineOf p) = lineOf p := by
  obtain ⟨c, nrest, hdata⟩ : ∃ c nrest, p.1.data = c :: nrest := by
    cases hd : p.1.data with
    | nil => exact absurd hd hne
    | cons a b => exact ⟨a, b, rfl⟩
  have hcid : isIdentChar c = true := by
    have h := hall; rw [hdata, List.all_cons, Bool.and_eq_true] at h; exact h.1
  obtain ⟨v0, vrest, hvs⟩ :
      ∃ v0 vrest, (valueStrOf p.2).data = v0 :: vrest := by
    cases hd : (valueStrOf p.2).data with
    | nil => exact absurd hd hvne
    | cons a b => exact ⟨a, b, rfl⟩
  have hv0 : isNumRunChar v0 = true := by
    have h := hv1; rw [hvs, List.all_cons, Bool.and_eq_true] at h; exact h.1
  have hlead : (lineOf p).takeWhile isPyWs = [] := by
    rw [lineOf, hdata, List.cons_append, List.takeWhile_cons,
      if_neg (by simp [isPyWs_eq_false_of_isIdentChar c hcid])]
  have hpre : p.1.data.isPrefixOf (lineOf p) = true :=
    List.isPrefixOf_iff_prefix.mpr ⟨' ' :: '=' :: ' ' :: (valueStrOf p.2).data, rfl⟩
  have hdrop : (lineOf p).drop p.1.data.length =
      ' ' :: '=' :: ' ' :: (valueStrOf p.2).data := by
    rw [lineOf, List.drop_left]
  have hmid : (' ' :: '=' :: ' ' :: (valueStrOf p.2).data).takeWhile isPyWs =
      [' '] := by
    rw [List.takeWhile_cons, if_pos (by decide), List.takeWhile_cons,
      if_neg (by decide)]
  have hpost : (' ' :: (valueStrOf p.2).data).takeWhile isPyWs = [' '] := by
    rw [List.takeWhile_cons, if_pos (by decide), hvs, List.takeWhile_cons,
      if_neg (by simp [isPyWs_eq_false_of_isNumRunChar v0 hv0])]
  have hrun : (valueStrOf p.2).data.takeWhile isNumRunChar =
      (valueStrOf p.2).data := takeWhile_of_all isNumRunChar _ hv1
  unfold subAssignLine
  simp only [hlead, List.length_nil, List.drop_zero]
  rw [if_pos hpre]
  simp only [hdrop, hmid, List.length_cons, List.length_nil, List.drop_succ_cons,
    List.drop_zero, hpost, hrun]
  rw [if_neg hvne]
  rw [lineOf, hdata]
  simp [List.drop_length]

/-- Setting an entry to its current value changes nothing. -/
theorem setSelf (ls : List (List Char)) : ∀ (n : ℕ) (x : List Char),
    ls.get? n = some x → ls.set n x = ls := by
  induction ls with
  | nil => intro n x h; cases h
  | cons a t ih =>
    intro n x h
    cases n with
    | zero =>
      rw [List.get?_cons_zero] at h
      injection h with h
      rw [← h, List.set_cons_zero]
    | succ m =>
      rw [List.get?_cons_succ] at h
      rw [List.set_cons_succ, ih m x h]

/-- A fold of self-valued `set`s is the identity. -/
theorem foldl_set_self (reps : List (ℕ × List Char)) :
    ∀ (ls : List (List Char)),
      (∀ r ∈ reps, ls.get? r.1 = some r.2) →
      reps.foldl (fun acc q => acc.set q.1 q.2) ls = ls := by
  induction reps with
  | nil => intro ls _; rfl
  | cons r rest ih =>
    intro ls h
    rw [List.foldl_cons, setSelf ls r.1 r.2 (h r (List.mem_cons_self r rest))]
    exact ih ls (fun x hx => h x (List.mem_cons_of_mem r hx))

/-- Every replacement recorded by the injection walk is a self-valued
rewrite when the substitution fixes each targeted line. -/
theorem injectWalk_entries (lines : List (List Char)) (m : List (String × Dec)) :
    ∀ (stmts : List PyStmt),
      (∀ nm e i, PyStmt.assign [PyTarget.name nm] e i ∈ stmts →
        ∀ v, dictLookup m nm = some v →
          subAssignLine nm.data (valueStrOf v).data (lines.getD (i - 1) []) =
              lines.getD (i - 1) [] ∧
            lines.get? (i - 1) = some (lines.getD (i - 1) [])) →
      ∀ r ∈ injectWalk lines m stmts, lines.get? r.1 = some r.2 := by
  intro stmts
  induction stmts with
  | nil => intro _ r hr; cases hr
  | cons s rest ih =>
    intro h r hr
    have hrest : ∀ nm e i, PyStmt.assign [PyTarget.name nm] e i ∈ rest →
        ∀ v, dictLookup m nm = some v →
          subAssignLine nm.data (valueStrOf v).data (lines.getD (i - 1) []) =
              lines.getD (i - 1) [] ∧
            lines.get? (i - 1) = some (lines.getD (i - 1) []) :=
      fun nm e i hm v hv => h nm e i (List.mem_cons_of_mem s hm) v hv
    cases s with
    | imprt l => exact ih hrest r hr
    | importFrom l => exact ih hrest r hr
    | exprStmt e l => exact ih hrest r hr
    | otherStmt l => cases hr
    | assign targets e i =>
      cases targets with
      | nil => exact ih hrest r hr
      | cons t ts =>
        cases ts with
        | cons t2 ts2 => cases t <;> exact ih hrest r hr
        | nil =>
          cases t with
          | otherTarget => exact ih hrest r hr
          | name nm =>
            rw [injectWalk] at hr
            cases hl : dictLookup m nm with
            | none =>
              rw [hl] at hr
              exact ih hrest r hr
            | some v =>
              rw [hl] at hr
              rcases List.mem_cons.mp hr with h1 | h1
              · obtain ⟨hsub, hget⟩ :=
                  h nm e i (List.mem_cons_self _ _) v hl
                rw [h1]
                show lines.get? (i - 1) = some (subAssignLine nm.data
                  (valueStrOf v).data (lines.getD (i - 1) []))
                rw [hsub]
                exact hget
              · exact ih hrest r h1

/-- Every statement of a rendered block is one of its assignments. -/
theorem mem_stmtsOf (ps : List (String × Dec)) : ∀ (k : ℕ) (s : PyStmt),
    s ∈ stmtsOf k ps →
    ∃ j p, ps.get? j = some p ∧
      s = .assign [.name p.1] (.numConst p.2) (k + j) := by
  induction ps with
  | nil => intro k s hs; cases hs
  | cons p rest ih =>
    intro k s hs
    rw [stmtsOf] at hs
    rcases List.mem_cons.mp hs with h | h
    · exact ⟨0, p, rfl, by rw [h, Nat.add_zero]⟩
    · obtain ⟨j, q, hq, hs2⟩ := ih (k + 1) s h
      refine ⟨j + 1, q, by simpa using hq, ?_⟩
      rw [hs2]
      congr 1
      omega

/-- The names of the extracted records are the rendered names. -/
theorem paramsOf_names (ps : List (String × Dec)) : ∀ n,
    (paramsOf n ps).map Parameter.name = ps.map Prod.fst := by
  induction ps with
  | nil => intro n; rfl
  | cons p rest ih =>
    intro n
    rw [paramsOf, List.map_cons, List.map_cons, ih (n + 1)]

/-- Rendered pairs appear among the extracted records. -/
theorem mem_paramsOf (ps : List (String × Dec)) : ∀ (n j : ℕ) (p : String × Dec),
    ps.get? j = some p →
    ({ name := p.1, value := p.2, line := n + j } : Parameter) ∈ paramsOf n ps := by
  induction ps with
  | nil => intro n j p h; cases j <;> cases h
  | cons q rest ih =>
    intro n j p h
    cases j with
    | zero =>
      rw [List.get?_cons_zero] at h
      injection h with h
      subst h
      rw [paramsOf, Nat.add_zero]
      exact List.mem_cons_self _ _
    | succ mj =>
      rw [List.get?_cons_succ] at h
      rw [paramsOf]
      refine List.mem_cons_of_mem _ ?_
      rw [show n + (mj + 1) = n + 1 + mj from by omega]
      exact ih (n + 1) mj p h

/-- Extraction over a rendered block gives exactly its records. -/
theorem extract_render (ps : List (String × Dec)) (hne : ps ≠ [])
    (hid : ∀ p ∈ ps, p.1.data ≠ [] ∧ p.1.data.all isIdentChar = true ∧
      isIdentStart p.1.data.headI = true)
    (hkw : ∀ p ∈ ps, p.1 ≠ "import" ∧ p.1 ≠ "from")
    (hv : ∀ p ∈ ps, (valueStrOf p.2).data.all isNumRunChar = true ∧
      parseUnsignedNum (valueStrOf p.2).data = some (p.2, []))
    (hdim : ∀ p ∈ ps, isDimensionParameter p.1 = true) :
    extract_parameters pyParse (renderParams ps) = paramsOf 1 ps := by
  unfold extract_parameters
  rw [pyParse_render ps hne hid hkw hv]
  exact extractFromStmts_stmtsOf ps 1 hdim

/-- Injecting the extracted map back into a rendered block is the
identity. -/
theorem inject_render_id (ps : List (String × Dec)) (hne : ps ≠ [])
    (hid : ∀ p ∈ ps, p.1.data ≠ [] ∧ p.1.data.all isIdentChar = true ∧
      isIdentStart p.1.data.headI = true)
    (hkw : ∀ p ∈ ps, p.1 ≠ "import" ∧ p.1 ≠ "from")
    (hv : ∀ p ∈ ps, (valueStrOf p.2).data.all isNumRunChar = true ∧
      parseUnsignedNum (valueStrOf p.2).data = some (p.2, []))
    (hnodup : (ps.map Prod.fst).Nodup) :
    inject_parameters pyParse (renderParams ps)
      (mapFromExtract (paramsOf 1 ps)) = renderParams ps := by
  have hsplit : splitLines (renderParams ps).data = ps.map lineOf := by
    rw [show (renderParams ps).data = joinSep ['\n'] (ps.map lineOf) from rfl]
    refine splitLines_joinSep _ ?_ (by simp [hne])
    intro l hl
    obtain ⟨q, hq, hql⟩ := List.mem_map.mp hl
    rw [← hql]
    exact newline_not_mem_lineOf q (hid q hq).2.1 (hv q hq).1
  have hEntries : ∀ r ∈ injectWalk (ps.map lineOf)
      (mapFromExtract (paramsOf 1 ps)) (stmtsOf 1 ps),
      (ps.map lineOf).get? r.1 = some r.2 := by
    refine injectWalk_entries (ps.map lineOf) (mapFromExtract (paramsOf 1 ps))
      (stmtsOf 1 ps) ?_
    intro nm e i hmem v hlook
    obtain ⟨j, p, hj, heq⟩ := mem_stmtsOf ps 1 _ hmem
    injection heq with h1 h2 h3
    injection h1 with h1a _
    injection h1a with h1a
    have hpm : p ∈ ps := List.get?_mem hj
    have hgl : (ps.map lineOf).get? j = some (lineOf p) := by
      rw [List.get?_map, hj]
      rfl
    have hij : i - 1 = j := by omega
    have hgd : (ps.map lineOf).getD (i - 1) [] = lineOf p := by
      rw [hij, List.getD_eq_get?, hgl]
      rfl
    have hlv : dictLookup (mapFromExtract (paramsOf 1 ps)) p.1 = some p.2 := by
      rw [mapFromExtract_nodup _ (by rw [paramsOf_names]; exact hnodup)]
      exact dictLookup_pairs (paramsOf 1 ps) ⟨p.1, p.2, "mm", 1 + j⟩
        (by rw [paramsOf_names]; exact hnodup) (mem_paramsOf ps 1 j p hj)
    have hveq : v = p.2 := by
      rw [h1a] at hlook
      rw [hlook] at hlv
      exact Option.some.inj hlv
    constructor
    · rw [hgd, hveq, h1a]
      exact subAssignLine_lineOf p (hid p hpm).1 (hid p hpm).2.1 (hv p hpm).1
        (valueStr_ne_nil_of_parse _ _ (hv p hpm).2)
    · rw [hgd, hij]
      exact hgl
  unfold inject_parameters
  rw [pyParse_render ps hne hid hkw hv]
  show String.mk (joinSep ['\n']
    ((injectWalk (splitLines (renderParams ps).data)
        (mapFromExtract (paramsOf 1 ps)) (stmtsOf 1 ps)).foldl
      (fun ls q => ls.set q.1 q.2) (splitLines (renderParams ps).data))) =
    renderParams ps
  rw [hsplit]
  rw [foldl_set_self _ (ps.map lineOf) hEntries]
  rfl

/-- C7 counterexample: on `length = 1e3` the extract-inject-extract round
trip changes the parameter\x27s value from 1000 to 1000000 — the injection
regex `[\\d\\.\\-]+` rewrites only the mantissa of an exponent literal,
leaving `length = 1000e3` behind. -/
theorem parameter_round_trip_counterexample :
    extract_parameters pyParse "length = 1e3" =
      [{ name := "length", value := ⟨1000, 0⟩, unit := "mm", line := 1 }] ∧
    inject_parameters pyParse "length = 1e3"
        (mapFromExtract (extract_parameters pyParse "length = 1e3")) =
      "length = 1000e3" ∧
    extract_parameters pyParse
        (inject_parameters pyParse "length = 1e3"
          (mapFromExtract (extract_parameters pyParse "length = 1e3"))) =
      [{ name := "length", value := ⟨1000000, 0⟩, unit := "mm", line := 1 }] ∧
    extract_parameters pyParse
        (inject_parameters pyParse "length = 1e3"
          (mapFromExtract (extract_parameters pyParse "length = 1e3"))) ≠
      extract_parameters pyParse "length = 1e3" :=
  ⟨by decide, by decide, by decide, by decide⟩

/-- C7 (amended): the extract-inject-extract round trip is the identity
on canonically rendered parameter blocks — one `name = value` line per
pair, identifier names that are dimension parameters and not keywords,
pairwise distinct, each value rendered as a plain (exponent-free) numeral
that re-parses to itself.  On such blocks extraction returns exactly the
rendered records, injecting the extracted map back is the identity on the
code, and re-extraction returns the same parameter list.  (In general the
property fails — see the counterexample with an exponent literal.) -/
theorem parameter_round_trip_on_canonical (ps : List (String × Dec))
    (hne : ps ≠ [])
    (hid : ∀ p ∈ ps, p.1.data ≠ [] ∧ p.1.data.all isIdentChar = true ∧
      isIdentStart p.1.data.headI = true)
    (hkw : ∀ p ∈ ps, p.1 ≠ "import" ∧ p.1 ≠ "from")
    (hdim : ∀ p ∈ ps, isDimensionParameter p.1 = true)
    (hv : ∀ p ∈ ps, (valueStrOf p.2).data.all isNumRunChar = true ∧
      parseUnsignedNum (valueStrOf p.2).data = some (p.2, []))
    (hnodup : (ps.map Prod.fst).Nodup) :
    extract_parameters pyParse (renderParams ps) = paramsOf 1 ps ∧
    inject_parameters pyParse (renderParams ps)
        (mapFromExtract (extract_parameters pyParse (renderParams ps))) =
      renderParams ps ∧
    extract_parameters pyParse
        (inject_parameters pyParse (renderParams ps)
          (mapFromExtract (extract_parameters pyParse (renderParams ps)))) =
      extract_parameters pyParse (renderParams ps) := by
  have hex := extract_render ps hne hid hkw hv hdim
  have hinj : inject_parameters pyParse (renderParams ps)
      (mapFromExtract (extract_parameters pyParse (renderParams ps))) =
      renderParams ps := by
    rw [hex]
    exact inject_render_id ps hne hid hkw hv hnodup
  exact ⟨hex, hinj, by rw [hinj]⟩

/-- C7 witness: the amended round-trip theorem applied to the concrete
block `length = 5`, `width = 2.5`. -/
theorem parameter_round_trip_on_canonical_witness :
    extract_parameters pyParse
        (renderParams [("length", ⟨5, 0⟩), ("width", ⟨25, 1⟩)]) =
      paramsOf 1 [("length", ⟨5, 0⟩), ("width", ⟨25, 1⟩)] ∧
    inject_parameters pyParse
        (renderParams [("length", ⟨5, 0⟩), ("width", ⟨25, 1⟩)])
        (mapFromExtract (extract_parameters pyParse
          (renderParams [("length", ⟨5, 0⟩), ("width", ⟨25, 1⟩)]))) =
      renderParams [("length", ⟨5, 0⟩), ("width", ⟨25, 1⟩)] ∧
    extract_parameters pyParse
        (inject_parameters pyParse
          (renderParams [("length", ⟨5, 0⟩), ("width", ⟨25, 1⟩)])
          (mapFromExtract (extract_parameters pyParse
            (renderParams [("length", ⟨5, 0⟩), ("width", ⟨25, 1⟩)])))) =
      extract_parameters pyParse
        (renderParams [("length", ⟨5, 0⟩), ("width", ⟨25, 1⟩)]) :=
  parameter_round_trip_on_canonical [("length", ⟨5, 0⟩), ("width", ⟨25, 1⟩)]
    (by decide) (by decide) (by decide) (by decide) (by decide) (by decide)

/-- The correction loop preserves the auto-inserted import prefix: no
correction pattern can match starting inside it. -/
theorem runCorrections_keeps_head (cs : List Correction)
    (hcs : ∀ c ∈ cs, ∀ i, i < IMPORT_PREFIX.length →
      agree c.lit.data (IMPORT_PREFIX.drop i) = false) :
    ∀ s ws, ∃ s2 ws2,
      runCorrections cs (IMPORT_PREFIX ++ s, ws) = (IMPORT_PREFIX ++ s2, ws2) := by
  induction cs with
  | nil => intro s ws; exact ⟨s, ws, rfl⟩
  | cons c cs ih =>
    intro s ws
    rw [runCorrections]
    by_cases ho : occurs c.lit.data (IMPORT_PREFIX ++ s) = true
    · rw [if_pos ho,
        replaceAll_concrete_head c.lit.data c.repl.data IMPORT_PREFIX
          (hcs c (List.mem_cons_self c cs)) s]
      exact ih (fun d hd => hcs d (List.mem_cons_of_mem c hd)) _ _
    · rw [if_neg ho]
      exact ih (fun d hd => hcs d (List.mem_cons_of_mem c hd)) s ws

/-- C10: on a script with neither `import cadquery` nor `from cadquery`,
`validate` records the missing-import error (so the result is invalid),
and still returns a corrected script beginning with the auto-inserted
`import cadquery as cq` line — the auto-insertion never by itself makes
the result valid. -/
theorem validate_missing_import (astError : String → Option (ℕ × String))
    (code : String) (himp : importMissing code.data = true) :
    "Missing CadQuery import statement" ∈ (validate astError code).errors ∧
    (validate astError code).is_valid = false ∧
    ∃ c, (validate astError code).corrected_code = some c ∧
      IMPORT_PREFIX.isPrefixOf c.data = true := by
  obtain ⟨s2, ws2, hst⟩ := runCorrections_keeps_head CORRECTIONS
    (by decide) code.data []
  have hne : IMPORT_PREFIX ++ s2 ≠ code.data := by
    intro he
    have hocc : occurs "import cadquery".data code.data = true := by
      rw [← he]
      rw [occurs_characterization]
      exact ⟨[], " as cq\n\n".data ++ s2, by rfl⟩
    unfold importMissing at himp
    rw [hocc] at himp
    cases himp
  unfold validate
  simp only [himp, if_true, hst]
  refine ⟨by simp, by simp [List.isEmpty], ?_⟩
  rw [if_pos hne]
  exact ⟨String.mk (IMPORT_PREFIX ++ s2), rfl,
    List.isPrefixOf_iff_prefix.mpr ⟨s2, rfl⟩⟩

/-- C10 witness: the missing-import theorem applied to the script
`result = 1` with a clean parse. -/
theorem validate_missing_import_witness :
    importMissing ("result = 1" : String).data = true ∧
    ("Missing CadQuery import statement" ∈
      (validate (fun _ => none) "result = 1").errors ∧
    (validate (fun _ => none) "result = 1").is_valid = false ∧
    ∃ c, (validate (fun _ => none) "result = 1").corrected_code = some c ∧
      IMPORT_PREFIX.isPrefixOf c.data = true) :=
  ⟨by decide, validate_missing_import (fun _ => none) "result = 1" (by decide)⟩

/-- An occurrence of a superstring gives an occurrence of a prefix. -/
theorem occurs_of_prefix_occurs {q r t : List Char} (hqr : q <+: r)
    (h : occurs r t = true) : occurs q t = true := by
  rw [occurs_characterization] at h ⊢
  exact hqr.isInfix.trans h

/-- The correction loop is the identity when no pattern occurs. -/
theorem runCorrections_no_occurs : ∀ (cs : List Correction) (s : List Char)
    (ws : List String), (∀ c ∈ cs, occurs c.lit.data s = false) →
    runCorrections cs (s, ws) = (s, ws) := by
  intro cs
  induction cs with
  | nil => intro s ws _; rfl
  | cons c cs ih =>
    intro s ws h
    rw [runCorrections, if_neg (by simp [h c (List.mem_cons_self c cs)])]
    exact ih s ws (fun d hd => h d (List.mem_cons_of_mem c hd))

/-- A string free of `q` stays free of `q` through the loop when `q`
cannot overlap any replacement. -/
theorem runCorrections_not_created (q : List Char) (hq : q ≠ []) :
    ∀ (cs : List Correction) (s : List Char) (ws : List String),
      (∀ d ∈ cs, d.lit.data ≠ [] ∧ d.repl.data ≠ []) →
      (∀ d ∈ cs, canOverlap q d.repl.data = false) →
      occurs q s = false →
      occurs q (runCorrections cs (s, ws)).1 = false := by
  intro cs
  induction cs with
  | nil => intro s ws _ _ h; exact h
  | cons d cs ih =>
    intro s ws hne hco h
    have hd0 : d ∈ d :: cs := List.mem_cons_self d cs
    rw [runCorrections]
    by_cases ho : occurs d.lit.data s = true
    · rw [if_pos ho]
      refine ih _ _ (fun e he => hne e (List.mem_cons_of_mem d he))
        (fun e he => hco e (List.mem_cons_of_mem d he)) ?_
      by_contra hx
      rw [Bool.not_eq_false] at hx
      rcases occurs_replaceAll_imp (hne d hd0).1 hq (hne d hd0).2 s hx with h1 | h1
      · rw [h] at h1; exact absurd h1 (by simp)
      · rw [hco d hd0] at h1; exact absurd h1 (by simp)
    · rw [if_neg ho]
      exact ih _ _ (fun e he => hne e (List.mem_cons_of_mem d he))
        (fun e he => hco e (List.mem_cons_of_mem d he)) h

/-- After the loop no correction pattern occurs any more: each pass
clears its own pattern, and no later replacement can recreate an earlier
one. -/
theorem runCorrections_clears : ∀ (cs : List Correction) (s : List Char)
    (ws : List String),
    (∀ c ∈ cs, c.lit.data ≠ [] ∧ c.repl.data ≠ [] ∧
      canOverlap c.lit.data c.repl.data = false) →
    List.Pairwise (fun c d => canOverlap c.lit.data d.repl.data = false) cs →
    ∀ c ∈ cs, occurs c.lit.data (runCorrections cs (s, ws)).1 = false := by
  intro cs
  induction cs with
  | nil => intro s ws _ _ c hc; cases hc
  | cons c0 cs ih =>
    intro s ws hconds hpw c hc
    rw [List.pairwise_cons] at hpw
    have hc00 : c0 ∈ c0 :: cs := List.mem_cons_self c0 cs
    rw [runCorrections]
    by_cases ho : occurs c0.lit.data s = true
    · rw [if_pos ho]
      rcases List.mem_cons.mp hc with rfl | hc2
      · refine runCorrections_not_created c.lit.data (hconds c hc00).1 cs _ _
          (fun d hd => ⟨(hconds d (List.mem_cons_of_mem c hd)).1,
            (hconds d (List.mem_cons_of_mem c hd)).2.1⟩)
          (fun d hd => hpw.1 d hd) ?_
        exact occurs_self_replaceAll (hconds c hc00).1 (hconds c hc00).2.1
          (hconds c hc00).2.2 s
      · exact ih _ _ (fun d hd => hconds d (List.mem_cons_of_mem c0 hd))
          hpw.2 c hc2
    · rw [if_neg ho]
      rcases List.mem_cons.mp hc with rfl | hc2
      · exact runCorrections_not_created c.lit.data (hconds c hc00).1 cs _ _
          (fun d hd => ⟨(hconds d (List.mem_cons_of_mem c hd)).1,
            (hconds d (List.mem_cons_of_mem c hd)).2.1⟩)
          (fun d hd => hpw.1 d hd) (by simpa using ho)
      · exact ih _ _ (fun d hd => hconds d (List.mem_cons_of_mem c0 hd))
          hpw.2 c hc2

/-- Through the loop, the presence of a CadQuery import mention
(`import cadquery` or `from cadquery`) is preserved: the early patterns
cannot touch either string, and the two import-rewriting corrections
insert `import cadquery` themselves whenever they fire. -/
theorem runCorrections_import_kept : ∀ (cs : List Correction) (s : List Char)
    (ws : List String),
    (∀ c ∈ cs, c.lit.data ≠ [] ∧ c.repl.data ≠ []) →
    (∀ c ∈ cs,
      (canOverlap "import cadquery".data c.lit.data = false ∧
        canOverlap "from cadquery".data c.lit.data = false) ∨
      "import cadquery".data <+: c.repl.data) →
    (occurs "import cadquery".data s = true ∨
      occurs "from cadquery".data s = true) →
    occurs "import cadquery".data (runCorrections cs (s, ws)).1 = true ∨
      occurs "from cadquery".data (runCorrections cs (s, ws)).1 = true := by
  intro cs
  induction cs with
  | nil => intro s ws _ _ hQ; exact hQ
  | cons c cs ih =>
    intro s ws hne hcond hQ
    have hc0 : c ∈ c :: cs := List.mem_cons_self c cs
    rw [runCorrections]
    by_cases ho : occurs c.lit.data s = true
    · rw [if_pos ho]
      refine ih _ _ (fun d hd => hne d (List.mem_cons_of_mem c hd))
        (fun d hd => hcond d (List.mem_cons_of_mem c hd)) ?_
      rcases hcond c hc0 with ⟨h1, h2⟩ | hpre
      · rcases hQ with hq | hq
        · exact Or.inl (occurs_preserved_replaceAll (hne c hc0).1
            (by decide) h1 s hq)
        · exact Or.inr (occurs_preserved_replaceAll (hne c hc0).1
            (by decide) h2 s hq)
      · exact Or.inl (occurs_of_prefix_occurs hpre
          (repl_occurs_of_occurs (hne c hc0).1 s ho))
    · rw [if_neg ho]
      exact ih _ _ (fun d hd => hne d (List.mem_cons_of_mem c hd))
        (fun d hd => hcond d (List.mem_cons_of_mem c hd)) hQ

/-- C8: for every script whose validation returns a corrected script,
validating the corrected script returns no further correction — one
auto-correction pass reaches a fixed point.  (Each pass clears its own
pattern, no later replacement recreates an earlier one, and the
corrected script always mentions a CadQuery import, so the second run
neither prepends the import nor rewrites anything.) -/
theorem validate_corrected_fixed_point
    (ae ae2 : String → Option (ℕ × String)) (code c2 : String)
    (h : (validate ae code).corrected_code = some c2) :
    (validate ae2 c2).corrected_code = none := by
  unfold validate at h
  simp only [] at h
  by_cases hc : (runCorrections CORRECTIONS
      ((if importMissing code.data then IMPORT_PREFIX ++ code.data
        else code.data), [])).1 ≠ code.data
  case neg =>
    rw [if_neg hc] at h
    cases h
  case pos =>
    rw [if_pos hc] at h
    have hdata : c2.data = (runCorrections CORRECTIONS
        ((if importMissing code.data then IMPORT_PREFIX ++ code.data
          else code.data), [])).1 := by
      rw [← Option.some.inj h]
    have hclear : ∀ c ∈ CORRECTIONS, occurs c.lit.data c2.data = false := by
      rw [hdata]
      exact runCorrections_clears CORRECTIONS _ [] (by decide) (by decide)
    have himp2 : importMissing c2.data = false := by
      by_cases hm : importMissing code.data = true
      · obtain ⟨s2, ws2, hst⟩ := runCorrections_keeps_head CORRECTIONS
          (by decide) code.data []
        rw [hm, if_pos rfl] at hdata
        rw [hst] at hdata
        unfold importMissing
        have : occurs "import cadquery".data c2.data = true := by
          rw [hdata, occurs_characterization]
          exact ⟨[], " as cq\n\n".data ++ s2, by rfl⟩
        rw [this]
        rfl
      · have hQ0 : occurs "import cadquery".data code.data = true ∨
            occurs "from cadquery".data code.data = true := by
          unfold importMissing at hm
          cases h1 : occurs "import cadquery".data code.data with
          | true => exact Or.inl rfl
          | false =>
            cases h2 : occurs "from cadquery".data code.data with
            | true => exact Or.inr rfl
            | false => exact absurd (by rw [h1, h2]; rfl) hm
        have hkept := runCorrections_import_kept CORRECTIONS code.data []
          (by decide) (by decide) hQ0
        have hmf : importMissing code.data = false := by
          cases h1 : importMissing code.data with
          | false => rfl
          | true => exact absurd h1 hm
        rw [hmf] at hdata
        simp only [Bool.false_eq_true, if_false] at hdata
        unfold importMissing
        rcases hkept with hq | hq
        · rw [← hdata] at hq
          rw [hq]
          rfl
        · rw [← hdata] at hq
          rw [hq]
          simp
    unfold validate
    simp only [himp2, Bool.false_eq_true, if_false]
    rw [runCorrections_no_occurs CORRECTIONS c2.data [] hclear]
    simp

/-- C8 witness: a script using the misspelled `.add(` is corrected to
`.union(`, and validating the corrected script corrects nothing. -/
theorem validate_corrected_fixed_point_witness :
    (validate (fun _ => none)
        "import cadquery as cq\nresult = box.add(y)").corrected_code =
      some "import cadquery as cq\nresult = box.union(y)" ∧
    (validate (fun _ => none)
        "import cadquery as cq\nresult = box.union(y)").corrected_code = none :=
  ⟨by decide,
    validate_corrected_fixed_point (fun _ => none) (fun _ => none)
      "import cadquery as cq\nresult = box.add(y)"
      "import cadquery as cq\nresult = box.union(y)" (by decide)⟩

end AiCad
